import Mathlib

/-!
# Ansible playbook stage plugin (`plugins/ansible/plugin.go`)

A shallow embedding of the stage-options validation and of the command
construction / execution performed by `executeAnsiblePlaybook`, together with
the properties of the design document that concern them.

Conventions of the embedding:

* Go `string` is `String`; Go `int` is `Int` (no arithmetic is performed on the
  integer fields, they are only compared with `0` and overwritten by `600`);
* a method with a pointer receiver returns the receiver's final value next to
  its result;
* Go `error` is `Option String` (`none` is `nil`), the string being the text of
  the error;
* whatever the function obtains from its surroundings (decoding of the payload,
  the order in which `range` walks a map, `os.Stat`, the run of the external
  process) is supplied by a `World` record;
* the functions of the Go standard library that decide a property (`strings.Join`,
  `strings.Repeat`, `filepath.Join`, and `json.Unmarshal` into the stage options)
  are rendered from their documented behaviour on Unix.
-/

namespace Ansible

/-! ## Data model -/

/-- Plugin-wide configuration (`pluginConfig`). -/
structure pluginConfig where
  AnsiblePath : String
  Inventory : String
  Vault : String
  deriving DecidableEq, Repr

/-- Stage options (`ansiblePlaybookStageOptions`).  `ExtraVars`, a Go
`map[string]string`, is kept as the list of its entries; the order of the list
carries no meaning (see `World.mapRange`). -/
structure ansiblePlaybookStageOptions where
  Playbook : String
  Inventory : String
  ExtraVars : List (String × String)
  Tags : List String
  SkipTags : List String
  Limit : String
  Verbosity : Int
  CheckMode : Bool
  DiffMode : Bool
  Vault : String
  PrivateKey : String
  RemoteUser : String
  BecomeUser : String
  Timeout : Int
  deriving DecidableEq, Repr

/-- The zero value of `ansiblePlaybookStageOptions` (`var stageOpts ...`). -/
def zeroStageOptions : ansiblePlaybookStageOptions :=
  { Playbook := "", Inventory := "", ExtraVars := [], Tags := [], SkipTags := [],
    Limit := "", Verbosity := 0, CheckMode := false, DiffMode := false,
    Vault := "", PrivateKey := "", RemoteUser := "", BecomeUser := "", Timeout := 0 }

/-! ## `validate` -/

/-- The method `(*ansiblePlaybookStageOptions).validate`: the first component is
the receiver after the call, the second the returned error. -/
def validate (p : ansiblePlaybookStageOptions) :
    ansiblePlaybookStageOptions × Option String :=
  if p.Playbook = "" then
    (p, some "playbook is required")
  else
    let p := if p.Timeout ≤ 0 then { p with Timeout := 600 } else p
    (p, none)

/-! ## Go standard library functions used by the plugin

Strings are treated as sequences of characters; the only characters that are
inspected are the ASCII characters `/` and `.`, on which the byte-wise Go code
and this character-wise rendering agree for UTF-8 text. -/

/-- The function `strings.Join(elems, sep)`. -/
def stringsJoin (elems : List String) (sep : String) : String :=
  match elems with
  | [] => ""
  | e :: rest => rest.foldl (fun acc x => acc ++ sep ++ x) e

/-- The string that `strings.Repeat(s, count)` returns, for a non-negative
`count`, when the call returns; whether it returns is `stringsRepeatReturns`. -/
def stringsRepeat (s : String) : Nat → String
  | 0 => ""
  | n + 1 => stringsRepeat s n ++ s

/-- Whether the call `strings.Repeat(s, count)` returns.  The counts `0` and `1`
return at once; a negative count panics; otherwise the `len(s) * count` bytes of
the result are allocated first, and the call panics (or the run dies) when that
many bytes cannot be allocated, `allocLimit` being the largest size that can. -/
def stringsRepeatReturns (allocLimit : Nat) (s : String) (count : Int) : Bool :=
  decide (count = 0 ∨ count = 1 ∨ (0 ≤ count ∧ s.utf8ByteSize * count.toNat ≤ allocLimit))

/-- The inner loop of the `..` case of `filepath.Clean`, started after the
first `out.w--`: `for out.w > dotdot && !isSep(out.index(out.w)) { out.w-- }`.
Returns the final `out.w`. -/
def cleanBacktrack (buf : List Char) (dotdot : Nat) : Nat → Nat
  | 0 => 0
  | w + 1 =>
    if dotdot < w + 1 ∧ buf.get? (w + 1) ≠ some '/' then cleanBacktrack buf dotdot w
    else w + 1

/-- The main loop `for r < n { switch ... }` of `filepath.Clean` (Unix): `path`
is the unread part `path[r:]`, `out` the written part of the buffer (so `out.w`
is `out.length`).  Every iteration reads at least one character, so a `fuel`
of the length of the path is never exhausted. -/
def cleanLoop (rooted : Bool) : Nat → List Char → List Char → Nat → List Char
  | 0, _, out, _ => out
  | fuel + 1, path, out, dotdot =>
    match path with
    | [] => out
    | c :: rest =>
      if c = '/' then
        -- empty path element
        cleanLoop rooted fuel rest out dotdot
      else if c = '.' ∧ (rest = [] ∨ rest.head? = some '/') then
        -- . element
        cleanLoop rooted fuel rest out dotdot
      else if c = '.' ∧ rest.head? = some '.' ∧
          (rest.tail = [] ∨ rest.tail.head? = some '/') then
        -- .. element: remove to last separator
        if dotdot < out.length then
          cleanLoop rooted fuel rest.tail
            (out.take (cleanBacktrack out dotdot (out.length - 1))) dotdot
        else if rooted = false then
          let out := (if 0 < out.length then out ++ ['/'] else out) ++ ['.', '.']
          cleanLoop rooted fuel rest.tail out out.length
        else
          cleanLoop rooted fuel rest.tail out dotdot
      else
        -- real path element: add slash if needed, copy element
        let out :=
          if (rooted = true ∧ out.length ≠ 1) ∨ (rooted = false ∧ out.length ≠ 0) then
            out ++ ['/']
          else out
        cleanLoop rooted fuel (path.dropWhile (fun x => x ≠ '/'))
          (out ++ path.takeWhile (fun x => x ≠ '/')) dotdot

/-- The function `filepath.Clean(path)` on Unix (no volume names, separator
`/`). -/
def filepathClean (path : String) : String :=
  if path = "" then "."
  else
    let p := path.data
    let out :=
      if p.head? = some '/' then cleanLoop true p.length p.tail ['/'] 1
      else cleanLoop false p.length p [] 0
    String.mk (if out = [] then ['.'] else out)

/-- The function `filepath.Join(elem...)` on Unix: leading empty elements are
dropped, the remaining ones are joined with `/` and the result is cleaned. -/
def filepathJoin : List String → String
  | [] => ""
  | e :: rest =>
    if e ≠ "" then filepathClean (stringsJoin (e :: rest) "/") else filepathJoin rest

/-! ## The plugin SDK types that the stage execution touches -/

/-- Stage statuses of the SDK (`sdk.StageStatus...`). -/
inductive StageStatus where
  | StageStatusSuccess
  | StageStatusFailure
  | StageStatusExited
  deriving DecidableEq, Repr

/-- The response `sdk.ExecuteStageResponse`. -/
structure ExecuteStageResponse where
  Status : StageStatus
  deriving DecidableEq, Repr

/-- The deployment source (`TargetDeploymentSource`). -/
structure DeploymentSource where
  ApplicationDirectory : String
  deriving DecidableEq, Repr

/-- The request `sdk.ExecuteStageRequest`: `StageConfig` is the raw payload. -/
structure ExecuteStageRequest where
  StageName : String
  StageConfig : String
  TargetDeploymentSource : DeploymentSource
  deriving DecidableEq, Repr

/-- The input `sdk.ExecuteStageInput`. -/
structure ExecuteStageInput where
  Request : ExecuteStageRequest
  deriving DecidableEq, Repr

/-- Levels of the messages written to the log persister. -/
inductive LogLevel where
  | info
  | error
  deriving DecidableEq, Repr

/-- The command handed to `exec.CommandContext` with `cmd.Dir` set. -/
structure Cmd where
  Path : String
  Args : List String
  Dir : String
  deriving DecidableEq, Repr

/-- What `cmd.Run()` observed: the process ran to completion with the given
exit code (`text` is the text of the `*exec.ExitError` when the code is not
zero), or it did not (it could not be started, the context was cancelled, its
output could not be copied). -/
inductive RunResult where
  | exited (code : Int) (text : String)
  | notRun (text : String)
  deriving DecidableEq, Repr

/-- The `error` returned by `cmd.Run()`: `nil` exactly when the process ran and
exited with code zero. -/
def RunResult.err : RunResult → Option String
  | .exited code text => if code = 0 then none else some text
  | .notRun text => some text

/-- What `os.Stat(path)` observed. -/
inductive StatResult where
  /-- The file was found (`err == nil`). -/
  | found
  /-- No file has the path (`ENOENT`): the error satisfies `os.IsNotExist`. -/
  | notExist
  /-- A component that the path uses as a directory is not a directory
  (`ENOTDIR`): no file has the path, but the error does not satisfy
  `os.IsNotExist`. -/
  | notDirectory
  /-- Any other error (permission denied, too many links, ...). -/
  | failed (text : String)
  deriving DecidableEq, Repr

/-- The test `os.IsNotExist(err)` on the error of `os.Stat`. -/
def StatResult.isNotExist : StatResult → Bool
  | .notExist => true
  | _ => false

/-- The path that was looked up does not exist. -/
def StatResult.pathMissing : StatResult → Bool
  | .notExist => true
  | .notDirectory => true
  | _ => false

/-- The surroundings of one stage execution. -/
structure World where
  /-- Decoding of the payload, `json.Unmarshal(StageConfig, &stageOpts)`. -/
  jsonUnmarshal : String → Except String ansiblePlaybookStageOptions
  /-- The order in which `for k, v := range m` visits the entries of `m`. -/
  mapRange : List (String × String) → List (String × String)
  /-- A `range` loop visits every entry exactly once. -/
  mapRange_perm : ∀ m, (mapRange m).Perm m
  /-- The result of `os.Stat(path)`. -/
  osStat : String → StatResult
  /-- The run of the external process. -/
  cmdRun : Cmd → RunResult
  /-- The largest number of bytes that one allocation of the run can obtain. -/
  allocLimit : Nat
  /-- No allocation reaches the largest value of an `int`. -/
  allocLimit_lt : allocLimit < 9223372036854775807

/-- Whether `os.Stat(path)` fails with an error satisfying `os.IsNotExist`. -/
def World.statIsNotExist (w : World) (path : String) : Bool :=
  (w.osStat path).isNotExist

/-- Everything observable of one call of `executeAnsiblePlaybook`: the messages
it wrote to the log persister, the command on which `cmd.Run()` was called (if
it got that far), the two returned values, and whether the call, instead of
returning, panicked. -/
structure Execution where
  logs : List (LogLevel × String)
  launched : Option Cmd
  response : Option ExecuteStageResponse
  err : Option String
  panicked : Bool := false
  deriving DecidableEq, Repr

/-! ## `executeAnsiblePlaybook` -/

/-- Lines 128-192 of `executeAnsiblePlaybook`: the construction of `args`, one
`append` after the other.  This is the list that the code builds when the call
of `strings.Repeat` at line 160 returns; `executeAnsiblePlaybook` accounts for
the call that does not. -/
def ansiblePlaybookArgs (w : World) (cfg : pluginConfig)
    (stageOpts : ansiblePlaybookStageOptions) (dir playbookPath : String) : List String :=
  let args := [playbookPath]
  let inventory := stageOpts.Inventory
  let inventory := if inventory = "" then cfg.Inventory else inventory
  let args :=
    if inventory ≠ "" then args ++ ["-i", filepathJoin [dir, inventory]] else args
  let args :=
    if 0 < stageOpts.ExtraVars.length then
      let extraVars := (w.mapRange stageOpts.ExtraVars).foldl
        (fun acc kv => acc ++ [kv.1 ++ "=" ++ kv.2]) []
      args ++ ["--extra-vars", stringsJoin extraVars " "]
    else args
  let args :=
    if 0 < stageOpts.Tags.length then args ++ ["--tags", stringsJoin stageOpts.Tags ","]
    else args
  let args :=
    if 0 < stageOpts.SkipTags.length then
      args ++ ["--skip-tags", stringsJoin stageOpts.SkipTags ","]
    else args
  let args := if stageOpts.Limit ≠ "" then args ++ ["--limit", stageOpts.Limit] else args
  let args :=
    if 0 < stageOpts.Verbosity then
      let verbosity := stringsRepeat "v" stageOpts.Verbosity.toNat
      args ++ ["-" ++ verbosity]
    else args
  let args := if stageOpts.CheckMode = true then args ++ ["--check"] else args
  let args := if stageOpts.DiffMode = true then args ++ ["--diff"] else args
  let vault := stageOpts.Vault
  let vault := if vault = "" then cfg.Vault else vault
  let args :=
    if vault ≠ "" then args ++ ["--vault-password-file", filepathJoin [dir, vault]] else args
  let args :=
    if stageOpts.PrivateKey ≠ "" then
      args ++ ["--private-key", filepathJoin [dir, stageOpts.PrivateKey]]
    else args
  let args :=
    if stageOpts.RemoteUser ≠ "" then args ++ ["--user", stageOpts.RemoteUser] else args
  let args :=
    if stageOpts.BecomeUser ≠ "" then
      args ++ ["--become", "--become-user", stageOpts.BecomeUser]
    else args
  args

/-- The function `executeAnsiblePlaybook`.  Between the check of the playbook and
the first message after it, the code only builds `args`; the one step of that
which can fail, the call of `strings.Repeat` at line 160 (reached when the
verbosity is positive), is examined before the list is taken from
`ansiblePlaybookArgs`: when it panics, nothing has been written or launched. -/
def executeAnsiblePlaybook (w : World) (cfg : pluginConfig) (input : ExecuteStageInput) :
    Execution :=
  match w.jsonUnmarshal input.Request.StageConfig with
  | .error e =>
    { logs := [(LogLevel.error, "Failed to unmarshal the stage config (" ++ e ++ ")")],
      launched := none, response := none,
      err := some ("failed to unmarshal the stage config (" ++ e ++ ")") }
  | .ok decoded =>
    match validate decoded with
    | (_, some e) =>
      { logs := [(LogLevel.error, "Invalid stage options: " ++ e)],
        launched := none, response := none,
        err := some ("invalid stage options: " ++ e) }
    | (stageOpts, none) =>
      let ansiblePath := cfg.AnsiblePath
      let ansiblePath := if ansiblePath = "" then "ansible-playbook" else ansiblePath
      let dir := input.Request.TargetDeploymentSource.ApplicationDirectory
      let playbookPath := filepathJoin [dir, stageOpts.Playbook]
      if w.statIsNotExist playbookPath = true then
        { logs := [(LogLevel.error, "Playbook file does not exist: " ++ playbookPath)],
          launched := none, response := none,
          err := some ("playbook file does not exist: " ++ playbookPath) }
      else if 0 < stageOpts.Verbosity ∧
          stringsRepeatReturns w.allocLimit "v" stageOpts.Verbosity = false then
        { logs := [], launched := none, response := none, err := none, panicked := true }
      else
        let args := ansiblePlaybookArgs w cfg stageOpts dir playbookPath
        let log1 := (LogLevel.info,
          "Executing ansible-playbook command: " ++ ansiblePath ++ " " ++ stringsJoin args " ")
        let cmd : Cmd := { Path := ansiblePath, Args := args, Dir := dir }
        match (w.cmdRun cmd).err with
        | some e =>
          { logs := [log1, (LogLevel.error, "Failed to execute ansible-playbook: " ++ e)],
            launched := some cmd,
            response := some { Status := StageStatus.StageStatusFailure },
            err := some ("failed to execute ansible-playbook: " ++ e) }
        | none =>
          { logs := [log1, (LogLevel.info, "Ansible playbook executed successfully")],
            launched := some cmd,
            response := some { Status := StageStatus.StageStatusSuccess },
            err := none }

/-! ## Stage catalogue and dispatch -/

/-- Manual operations of the SDK (`sdk.ManualOperation...`). -/
inductive ManualOperation where
  | ManualOperationUnknown
  | ManualOperationSkip
  | ManualOperationApprove
  | ManualOperationNone
  deriving DecidableEq, Repr

/-- A requested stage (`sdk.StageConfig`): its index, its name and its raw
configuration. -/
structure StageConfig where
  Index : Int
  Name : String
  Config : String
  deriving DecidableEq, Repr

/-- The request `sdk.BuildPipelineSyncStagesRequest`. -/
structure BuildPipelineSyncStagesRequest where
  Rollback : Bool
  Stages : List StageConfig
  deriving DecidableEq, Repr

/-- A stage of the pipeline (`sdk.PipelineStage`); `Metadata`, a Go
`map[string]string`, is kept as the list of its entries. -/
structure PipelineStage where
  Index : Int
  Name : String
  Rollback : Bool
  Metadata : List (String × String)
  AvailableOperation : ManualOperation
  deriving DecidableEq, Repr

/-- The receiver type `plugin`. -/
structure plugin where
  deriving DecidableEq, Repr

/-- The constant `stageAnsiblePlaybook`. -/
def stageAnsiblePlaybook : String := "ANSIBLE_PLAYBOOK"

/-- The method `(*plugin).FetchDefinedStages`. -/
def plugin.FetchDefinedStages (_p : plugin) : List String :=
  [stageAnsiblePlaybook]

/-- The function `buildPipelineSyncStages`: the loop appends one stage per
requested stage. -/
def buildPipelineSyncStages (req : BuildPipelineSyncStagesRequest) : List PipelineStage :=
  req.Stages.foldl
    (fun stages rs =>
      let stage : PipelineStage :=
        { Index := rs.Index,
          Name := rs.Name,
          Rollback := false,
          Metadata := [],
          AvailableOperation := ManualOperation.ManualOperationNone }
      stages ++ [stage])
    []

/-- The method `(*plugin).ExecuteStage`: the `switch` on the stage name, and the
error returned when no case applies. -/
def plugin.ExecuteStage (_p : plugin) (w : World) (cfg : pluginConfig)
    (input : ExecuteStageInput) : Execution :=
  if input.Request.StageName = stageAnsiblePlaybook then
    executeAnsiblePlaybook w cfg input
  else
    { logs := [], launched := none, response := none,
      err := some ("unsupported stage: " ++ input.Request.StageName) }

/-! ## The documented argument list

The argument list as section 4.2 of the design document words it, one
definition per numbered step, written with the list and string functions of the
library rather than with the renderings of the Go functions above. -/

/-- The inventory that is selected: the one of the stage when it is non-empty,
else the plugin-wide default. -/
def selectedInventory (cfg : pluginConfig) (o : ansiblePlaybookStageOptions) : String :=
  if o.Inventory ≠ "" then o.Inventory else cfg.Inventory

/-- The vault password file that is selected: the one of the stage when it is
non-empty, else the plugin-wide default. -/
def selectedVault (cfg : pluginConfig) (o : ansiblePlaybookStageOptions) : String :=
  if o.Vault ≠ "" then o.Vault else cfg.Vault

/-- The rendering `key=value` of the entries of a mapping visited in the order
`entries`, joined by single spaces. -/
def joinedExtraVars (entries : List (String × String)) : String :=
  " ".intercalate (entries.map (fun kv => kv.1 ++ "=" ++ kv.2))

/-- The verbosity token for `n`: a `-` followed by `n` letters `v`. -/
def verbosityToken (n : Nat) : String :=
  String.mk ('-' :: List.replicate n 'v')

/-- Step 4: `-i <path>` if an inventory is selected. -/
def inventoryArgs (cfg : pluginConfig) (o : ansiblePlaybookStageOptions) (root : String) :
    List String :=
  if selectedInventory cfg o ≠ "" then ["-i", filepathJoin [root, selectedInventory cfg o]]
  else []

/-- Step 5: `--extra-vars <joined>` if the mapping is non-empty. -/
def extraVarsArgs (w : World) (o : ansiblePlaybookStageOptions) : List String :=
  if o.ExtraVars ≠ [] then ["--extra-vars", joinedExtraVars (w.mapRange o.ExtraVars)] else []

/-- Step 6: `--tags <comma-joined tags>` if there are tags. -/
def tagsArgs (o : ansiblePlaybookStageOptions) : List String :=
  if o.Tags ≠ [] then ["--tags", ",".intercalate o.Tags] else []

/-- Step 7: `--skip-tags <comma-joined>` if there are tags to skip. -/
def skipTagsArgs (o : ansiblePlaybookStageOptions) : List String :=
  if o.SkipTags ≠ [] then ["--skip-tags", ",".intercalate o.SkipTags] else []

/-- Step 8: `--limit <limit>` if the limit is non-empty. -/
def limitArgs (o : ansiblePlaybookStageOptions) : List String :=
  if o.Limit ≠ "" then ["--limit", o.Limit] else []

/-- Step 9: one verbosity token if the verbosity is positive. -/
def verbosityArgs (o : ansiblePlaybookStageOptions) : List String :=
  if 0 < o.Verbosity then [verbosityToken o.Verbosity.toNat] else []

/-- Step 10: `--check` in check mode. -/
def checkArgs (o : ansiblePlaybookStageOptions) : List String :=
  if o.CheckMode = true then ["--check"] else []

/-- Step 11: `--diff` in diff mode. -/
def diffArgs (o : ansiblePlaybookStageOptions) : List String :=
  if o.DiffMode = true then ["--diff"] else []

/-- Step 12: `--vault-password-file <path>` if a vault is selected. -/
def vaultArgs (cfg : pluginConfig) (o : ansiblePlaybookStageOptions) (root : String) :
    List String :=
  if selectedVault cfg o ≠ "" then
    ["--vault-password-file", filepathJoin [root, selectedVault cfg o]]
  else []

/-- Step 13: `--private-key <path>` if a private key is given. -/
def privateKeyArgs (o : ansiblePlaybookStageOptions) (root : String) : List String :=
  if o.PrivateKey ≠ "" then ["--private-key", filepathJoin [root, o.PrivateKey]] else []

/-- Step 14: `--user <remoteUser>` if a remote user is given. -/
def remoteUserArgs (o : ansiblePlaybookStageOptions) : List String :=
  if o.RemoteUser ≠ "" then ["--user", o.RemoteUser] else []

/-- Step 15: `--become --become-user <becomeUser>` if a become user is given. -/
def becomeUserArgs (o : ansiblePlaybookStageOptions) : List String :=
  if o.BecomeUser ≠ "" then ["--become", "--become-user", o.BecomeUser] else []

/-- Steps 3 to 15 of section 4.2, in the documented order. -/
def documentedArgs (w : World) (cfg : pluginConfig) (o : ansiblePlaybookStageOptions)
    (root : String) : List String :=
  [filepathJoin [root, o.Playbook]]
    ++ inventoryArgs cfg o root
    ++ extraVarsArgs w o
    ++ tagsArgs o
    ++ skipTagsArgs o
    ++ limitArgs o
    ++ verbosityArgs o
    ++ checkArgs o
    ++ diffArgs o
    ++ vaultArgs cfg o root
    ++ privateKeyArgs o root
    ++ remoteUserArgs o
    ++ becomeUserArgs o

/-- The documented arguments that precede the verbosity token (steps 3 to 8). -/
def argsBeforeVerbosity (w : World) (cfg : pluginConfig) (o : ansiblePlaybookStageOptions)
    (root : String) : List String :=
  [filepathJoin [root, o.Playbook]] ++ inventoryArgs cfg o root ++ extraVarsArgs w o
    ++ tagsArgs o ++ skipTagsArgs o ++ limitArgs o

/-- The documented arguments that follow the verbosity token (steps 10 to 15). -/
def argsAfterVerbosity (cfg : pluginConfig) (o : ansiblePlaybookStageOptions)
    (root : String) : List String :=
  checkArgs o ++ diffArgs o ++ vaultArgs cfg o root ++ privateKeyArgs o root
    ++ remoteUserArgs o ++ becomeUserArgs o

/-- The command on which `executeAnsiblePlaybook` calls `cmd.Run()` once the
payload has decoded to `opts` (lines 117-120, 122, 128-192 and 196-197). -/
def commandOf (w : World) (cfg : pluginConfig) (opts : ansiblePlaybookStageOptions)
    (root : String) : Cmd :=
  { Path := if cfg.AnsiblePath = "" then "ansible-playbook" else cfg.AnsiblePath,
    Args := ansiblePlaybookArgs w cfg opts root (filepathJoin [root, opts.Playbook]),
    Dir := root }

/-! ## Decoding of the payload

The call `json.Unmarshal(StageConfig, &stageOpts)` for a payload that is a JSON
object, rendered from the documented behaviour of `encoding/json`.  The payload
is given parsed, as the list of its entries in the order of the text; values are
kept as far as decoding into the stage options can tell them apart.  The field
`World.jsonUnmarshal` stands for the parsing of the text followed by this
decoding, a saved error being the returned error. -/

/-- A JSON value that is neither an array nor an object.  A number literal in
integer syntax is kept by its value, any other number literal by its text. -/
inductive JsonScalar where
  | null
  | bool (b : Bool)
  | integer (n : Int)
  | fraction (literal : String)
  | string (s : String)
  deriving DecidableEq, Repr

/-- A JSON value inside an array or an object of the payload; of a nested array
or object only its kind matters. -/
inductive JsonItem where
  | scalar (v : JsonScalar)
  | nestedArray
  | nestedObject
  deriving DecidableEq, Repr

/-- The value of an entry of the payload. -/
inductive JsonValue where
  | scalar (v : JsonScalar)
  | array (elems : List JsonItem)
  | object (entries : List (String × JsonItem))
  deriving DecidableEq, Repr

/-- The kind of JSON value named by an `UnmarshalTypeError`. -/
def JsonScalar.kind : JsonScalar → String
  | .null => "null"
  | .bool _ => "bool"
  | .integer _ => "number"
  | .fraction _ => "number"
  | .string _ => "string"

/-- The kind of JSON value named by an `UnmarshalTypeError`. -/
def JsonItem.kind : JsonItem → String
  | .scalar v => v.kind
  | .nestedArray => "array"
  | .nestedObject => "object"

/-- The kind of JSON value named by an `UnmarshalTypeError`. -/
def JsonValue.kind : JsonValue → String
  | .scalar v => v.kind
  | .array _ => "array"
  | .object _ => "object"

/-- The decoder keeps the first type error (`saveError`). -/
def saveError (saved new : Option String) : Option String :=
  match saved with
  | some e => some e
  | none => new

/-- Decoding of a scalar into a Go `string` holding `old`: a JSON string is
stored, `null` has no effect, anything else is a type error. -/
def storeStringScalar (old : String) : JsonScalar → String × Option String
  | .string s => (s, none)
  | .null => (old, none)
  | v => (old, some v.kind)

/-- Decoding of an element of an array or object into a Go `string`. -/
def storeStringItem (old : String) : JsonItem → String × Option String
  | .scalar v => storeStringScalar old v
  | v => (old, some v.kind)

/-- Decoding of an entry value into a field of type `string`. -/
def storeString (old : String) : JsonValue → String × Option String
  | .scalar v => storeStringScalar old v
  | v => (old, some v.kind)

/-- Decoding of an entry value into a field of type `int` (64 bits): a number
literal in integer syntax within the range is stored, `null` has no effect,
anything else is a type error; for a number the error names the literal. -/
def storeInt (old : Int) : JsonValue → Int × Option String
  | .scalar (.integer n) =>
    if -9223372036854775808 ≤ n ∧ n ≤ 9223372036854775807 then (n, none)
    else (old, some ("number " ++ toString n))
  | .scalar (.fraction literal) => (old, some ("number " ++ literal))
  | .scalar .null => (old, none)
  | v => (old, some v.kind)

/-- Decoding of an entry value into a field of type `bool`. -/
def storeBool (old : Bool) : JsonValue → Bool × Option String
  | .scalar (.bool b) => (b, none)
  | .scalar .null => (old, none)
  | v => (old, some v.kind)

/-- Decoding of the elements of an array into a slice of strings, from index
`i` on: the element at an index is decoded into the slot of the backing array
at that index, which is not cleared first; `backing` lists what the backing
array holds, the slots beyond it holding the empty string. -/
def storeStringElems (backing : List String) :
    Nat → List JsonItem → List String × Option String
  | _, [] => ([], none)
  | i, e :: rest =>
    let r := storeStringItem (backing.getD i "") e
    let rs := storeStringElems backing (i + 1) rest
    (r.1 :: rs.1, saveError r.2 rs.2)

/-- Decoding of an entry value into a field of type `[]string` that holds the
slice `old`, its backing array holding `spare` beyond the length of the slice.
The result is the new slice, what the backing array holds beyond it, and the
error.  An array is decoded element by element into the backing array and the
slice is cut to the number of elements (an empty array gives a fresh empty
slice); `null` sets the slice to `nil`; anything else is a type error. -/
def storeStrings (old spare : List String) :
    JsonValue → List String × List String × Option String
  | .array elems =>
    if elems = [] then ([], [], none)
    else
      let r := storeStringElems (old ++ spare) 0 elems
      (r.1, (old ++ spare).drop elems.length, r.2)
  | .scalar .null => ([], [], none)
  | v => (old, spare, some v.kind)

/-- The assignment `m[k] = v` on a map kept as the list of its entries: the
entry of the key, if there is one, is dropped and the new entry is put at the
end (the order of the list carries no meaning). -/
def mapSet (m : List (String × String)) (k v : String) : List (String × String) :=
  m.filter (fun e => e.1 ≠ k) ++ [(k, v)]

/-- Decoding of an entry value into a field of type `map[string]string`: the
entries of an object are decoded one after the other, each value into a fresh
string, and assigned to the map, which keeps what it held; `null` sets the map
to `nil`; anything else is a type error. -/
def storeStringMap (old : List (String × String)) :
    JsonValue → List (String × String) × Option String
  | .object entries =>
    entries.foldl
      (fun acc e =>
        let r := storeStringItem "" e.2
        (mapSet acc.1 e.1 r.1, saveError acc.2 r.2))
      (old, none)
  | .scalar .null => ([], none)
  | v => (old, some v.kind)

/-- The state of a decoding: the options under construction, the saved error,
and what the backing arrays of the two slices hold beyond the length of the
slice (nothing, unless a slice was decoded before and came out shorter). -/
structure DecodeState where
  opts : ansiblePlaybookStageOptions
  err : Option String
  tagsSpare : List String := []
  skipTagsSpare : List String := []
  deriving DecidableEq, Repr

/-- The names of the `json` tags of `ansiblePlaybookStageOptions`, in the order
of the fields. -/
def stageOptionFields : List String :=
  ["playbook", "inventory", "extraVars", "tags", "skipTags", "limit", "verbosity",
    "checkMode", "diffMode", "vault", "privateKey", "remoteUser", "becomeUser", "timeout"]

/-- The representative of a character under simple case folding, as far as
names of ASCII letters are concerned: lower-case ASCII letters fold to upper
case, and the long s (U+017F) and the Kelvin sign (U+212A), the only other
characters in the fold set of an ASCII letter, fold to `S` and `K`. -/
def foldRune (c : Char) : Char :=
  if 'a' ≤ c ∧ c ≤ 'z' then Char.ofNat (c.toNat - 32)
  else if c = Char.ofNat 383 then 'S'
  else if c = Char.ofNat 8490 then 'K'
  else c

/-- The folded form of a name (`foldName`). -/
def foldName (s : String) : String :=
  String.mk (s.data.map foldRune)

/-- The field that a key of the payload denotes: the field with exactly that
name if there is one, else the field whose name equals the key after folding,
else none. -/
def findField (key : String) : Option String :=
  if key ∈ stageOptionFields then some key
  else stageOptionFields.find? (fun f => foldName f = foldName key)

/-- Decoding of the value `v` into the field named `field`. -/
def decodeField (st : DecodeState) (field : String) (v : JsonValue) : DecodeState :=
  if field = "playbook" then
    let r := storeString st.opts.Playbook v
    { st with opts := { st.opts with Playbook := r.1 }, err := saveError st.err r.2 }
  else if field = "inventory" then
    let r := storeString st.opts.Inventory v
    { st with opts := { st.opts with Inventory := r.1 }, err := saveError st.err r.2 }
  else if field = "extraVars" then
    let r := storeStringMap st.opts.ExtraVars v
    { st with opts := { st.opts with ExtraVars := r.1 }, err := saveError st.err r.2 }
  else if field = "tags" then
    let r := storeStrings st.opts.Tags st.tagsSpare v
    { st with opts := { st.opts with Tags := r.1 }, err := saveError st.err r.2.2,
              tagsSpare := r.2.1 }
  else if field = "skipTags" then
    let r := storeStrings st.opts.SkipTags st.skipTagsSpare v
    { st with opts := { st.opts with SkipTags := r.1 }, err := saveError st.err r.2.2,
              skipTagsSpare := r.2.1 }
  else if field = "limit" then
    let r := storeString st.opts.Limit v
    { st with opts := { st.opts with Limit := r.1 }, err := saveError st.err r.2 }
  else if field = "verbosity" then
    let r := storeInt st.opts.Verbosity v
    { st with opts := { st.opts with Verbosity := r.1 }, err := saveError st.err r.2 }
  else if field = "checkMode" then
    let r := storeBool st.opts.CheckMode v
    { st with opts := { st.opts with CheckMode := r.1 }, err := saveError st.err r.2 }
  else if field = "diffMode" then
    let r := storeBool st.opts.DiffMode v
    { st with opts := { st.opts with DiffMode := r.1 }, err := saveError st.err r.2 }
  else if field = "vault" then
    let r := storeString st.opts.Vault v
    { st with opts := { st.opts with Vault := r.1 }, err := saveError st.err r.2 }
  else if field = "privateKey" then
    let r := storeString st.opts.PrivateKey v
    { st with opts := { st.opts with PrivateKey := r.1 }, err := saveError st.err r.2 }
  else if field = "remoteUser" then
    let r := storeString st.opts.RemoteUser v
    { st with opts := { st.opts with RemoteUser := r.1 }, err := saveError st.err r.2 }
  else if field = "becomeUser" then
    let r := storeString st.opts.BecomeUser v
    { st with opts := { st.opts with BecomeUser := r.1 }, err := saveError st.err r.2 }
  else if field = "timeout" then
    let r := storeInt st.opts.Timeout v
    { st with opts := { st.opts with Timeout := r.1 }, err := saveError st.err r.2 }
  else st

/-- One entry of the payload: it is decoded into the field that its key denotes
and skipped when it denotes none. -/
def decodeEntry (st : DecodeState) (e : String × JsonValue) : DecodeState :=
  match findField e.1 with
  | some field => decodeField st field e.2
  | none => st

/-- The state in which a decoding starts: the zero value of the options, no
error, fresh slices. -/
def initialDecodeState : DecodeState :=
  { opts := zeroStageOptions, err := none, tagsSpare := [], skipTagsSpare := [] }

/-- The call `json.Unmarshal(payload, &stageOpts)` on the zero value of the
options, for a payload that is the JSON object with the entries `entries`. -/
def jsonUnmarshalObject (entries : List (String × JsonValue)) : DecodeState :=
  entries.foldl decodeEntry initialDecodeState

/-- The payload of the test `TestStageOptionsUnmarshal`. -/
def testPayload : List (String × JsonValue) :=
  [("playbook", .scalar (.string "deploy.yml")),
   ("inventory", .scalar (.string "hosts")),
   ("extraVars", .object [("env", .scalar (.string "production")),
                          ("version", .scalar (.string "1.0.0"))]),
   ("tags", .array [.scalar (.string "deploy"), .scalar (.string "configure")]),
   ("verbosity", .scalar (.integer 2)),
   ("checkMode", .scalar (.bool true))]

/-- The payload `{"playbook":"p.yml","extraVars":{"a":"1","a":"2"}}`. -/
def repeatedKeyPayload : List (String × JsonValue) :=
  [("playbook", .scalar (.string "p.yml")),
   ("extraVars", .object [("a", .scalar (.string "1")), ("a", .scalar (.string "2"))])]

/-! ## The documented decoding

The decoding as the design document words it: every field is taken from the
entry of the payload that names it, and is the zero value without such an
entry. -/

/-- The value of the entry of the payload that names `field`, up to the folding
of names under which the decoder matches keys. -/
def entryFor (entries : List (String × JsonValue)) (field : String) : Option JsonValue :=
  (entries.find? (fun e => foldName e.1 = foldName field)).map (fun e => e.2)

/-- The string that an entry stands for; the empty string without one. -/
def documentedString : Option JsonValue → String
  | some (.scalar (.string s)) => s
  | _ => ""

/-- The integer that an entry stands for; zero without one. -/
def documentedInt : Option JsonValue → Int
  | some (.scalar (.integer n)) => n
  | _ => 0

/-- The boolean that an entry stands for; false without one. -/
def documentedBool : Option JsonValue → Bool
  | some (.scalar (.bool b)) => b
  | _ => false

/-- The string that an element stands for. -/
def documentedItem : JsonItem → String
  | .scalar (.string s) => s
  | _ => ""

/-- The sequence of strings that an entry stands for; empty without one. -/
def documentedStrings : Option JsonValue → List String
  | some (.array elems) => elems.map documentedItem
  | _ => []

/-- The entries of an object that count: those that no entry with the same
key follows. -/
def lastEntries : List (String × JsonItem) → List (String × JsonItem)
  | [] => []
  | e :: rest =>
    if rest.any (fun x => x.1 = e.1) then lastEntries rest else e :: lastEntries rest

/-- The mapping that an entry stands for; empty without one. -/
def documentedMap : Option JsonValue → List (String × String)
  | some (.object entries) => (lastEntries entries).map (fun e => (e.1, documentedItem e.2))
  | _ => []

/-- The stage options that a payload stands for. -/
def documentedDecode (entries : List (String × JsonValue)) : ansiblePlaybookStageOptions :=
  { Playbook := documentedString (entryFor entries "playbook"),
    Inventory := documentedString (entryFor entries "inventory"),
    ExtraVars := documentedMap (entryFor entries "extraVars"),
    Tags := documentedStrings (entryFor entries "tags"),
    SkipTags := documentedStrings (entryFor entries "skipTags"),
    Limit := documentedString (entryFor entries "limit"),
    Verbosity := documentedInt (entryFor entries "verbosity"),
    CheckMode := documentedBool (entryFor entries "checkMode"),
    DiffMode := documentedBool (entryFor entries "diffMode"),
    Vault := documentedString (entryFor entries "vault"),
    PrivateKey := documentedString (entryFor entries "privateKey"),
    RemoteUser := documentedString (entryFor entries "remoteUser"),
    BecomeUser := documentedString (entryFor entries "becomeUser"),
    Timeout := documentedInt (entryFor entries "timeout") }

/-- A JSON string or `null`. -/
def stringTyped : JsonValue → Bool
  | .scalar (.string _) => true
  | .scalar .null => true
  | _ => false

/-- A JSON number in integer syntax that fits 64 bits, or `null`. -/
def intTyped : JsonValue → Bool
  | .scalar (.integer n) => decide (-9223372036854775808 ≤ n ∧ n ≤ 9223372036854775807)
  | .scalar .null => true
  | _ => false

/-- A JSON boolean or `null`. -/
def boolTyped : JsonValue → Bool
  | .scalar (.bool _) => true
  | .scalar .null => true
  | _ => false

/-- A JSON string or `null`, as an element. -/
def itemTyped : JsonItem → Bool
  | .scalar (.string _) => true
  | .scalar .null => true
  | _ => false

/-- A JSON array of strings, or `null`. -/
def stringsTyped : JsonValue → Bool
  | .array elems => elems.all itemTyped
  | .scalar .null => true
  | _ => false

/-- A JSON object of strings, or `null`. -/
def mapTyped : JsonValue → Bool
  | .object entries => entries.all (fun e => itemTyped e.2)
  | .scalar .null => true
  | _ => false

/-- The value `v` has the JSON type of the field named `field`. -/
def wellTyped (field : String) (v : JsonValue) : Bool :=
  if field ∈ ["playbook", "inventory", "limit", "vault", "privateKey", "remoteUser",
      "becomeUser"] then stringTyped v
  else if field ∈ ["verbosity", "timeout"] then intTyped v
  else if field ∈ ["checkMode", "diffMode"] then boolTyped v
  else if field ∈ ["tags", "skipTags"] then stringsTyped v
  else if field = "extraVars" then mapTyped v
  else true

/-- No two entries of the payload name the same field, and every entry that
names a field has a value of the JSON type of that field. -/
def wellFormedPayload (entries : List (String × JsonValue)) : Prop :=
  entries.Pairwise
      (fun a b => ∀ field ∈ stageOptionFields,
        ¬ (foldName a.1 = foldName field ∧ foldName b.1 = foldName field)) ∧
    ∀ e ∈ entries, ∀ field ∈ stageOptionFields,
      foldName e.1 = foldName field → wellTyped field e.2 = true

instance (entries : List (String × JsonValue)) : Decidable (wellFormedPayload entries) := by
  unfold wellFormedPayload
  infer_instance

/-! ## Paths as sequences of elements -/

/-- The path `/n1/n2/.../nk` made of the elements `names`. -/
def pathOf (names : List (List Char)) : List Char :=
  names.flatMap (fun n => '/' :: n)

/-- A name that `filepath.Clean` keeps as an element of a path: it is not empty,
it is neither `.` nor `..`, and it holds no separator. -/
def isPlainName (n : List Char) : Prop :=
  n ≠ [] ∧ n ≠ ['.'] ∧ n ≠ ['.', '.'] ∧ '/' ∉ n

instance (n : List Char) : Decidable (isPlainName n) := by
  unfold isPlainName
  infer_instance

/-- The elements of a sequence of characters read as a path: the runs of
characters between separators (so `/etc//hosts` has the elements ``, `etc`,
``, `hosts`). -/
def splitSep : List Char → List (List Char)
  | [] => [[]]
  | c :: rest =>
    if c = '/' then [] :: splitSep rest
    else
      match splitSep rest with
      | [] => [[c]]
      | e :: elems => (c :: e) :: elems

/-- The elements of a path. -/
def pathElements (p : String) : List (List Char) :=
  splitSep p.data

/-- The step `out.append('/')` (unless `out` is the bare root of a rooted path,
or empty in a path that is not rooted) followed by the copy of the element `e`,
as in the last case of the loop of `filepath.Clean`. -/
def pushElement (rooted : Bool) (out e : List Char) : List Char :=
  (if (rooted = true ∧ out.length ≠ 1) ∨ (rooted = false ∧ out.length ≠ 0) then out ++ ['/']
    else out) ++ e

/-- One iteration of the loop of `filepath.Clean` that reads the element `e`,
on the written part and the value of `dotdot`: an empty element and `.` change
nothing; `..` backtracks to the last separator when there is something to
remove, is written when the path is not rooted, and is dropped otherwise; any
other element is written. -/
def cleanStep (rooted : Bool) (s : List Char × Nat) (e : List Char) : List Char × Nat :=
  if e = [] ∨ e = ['.'] then s
  else if e = ['.', '.'] then
    if s.2 < s.1.length then (s.1.take (cleanBacktrack s.1 s.2 (s.1.length - 1)), s.2)
    else if rooted = false then
      (pushElement false s.1 ['.', '.'], (pushElement false s.1 ['.', '.']).length)
    else s
  else (pushElement rooted s.1 e, s.2)

/-- What `filepath.Clean` starts from: the leading separator of a rooted path,
nothing otherwise. -/
def cleanStart (rooted : Bool) : List Char :=
  if rooted then ['/'] else []

/-- The place that a path leads to: `ups` directories above where it starts,
then down through the names `down`, the deepest one first. -/
structure Position where
  ups : Nat
  down : List (List Char)
  deriving DecidableEq, Repr

/-- The place reached from `p` by the element `e`: an empty element and `.`
stay, a name goes down, `..` goes up (above the start only when the path is not
rooted; the root is its own parent). -/
def Position.step (rooted : Bool) (p : Position) (e : List Char) : Position :=
  if e = [] ∨ e = ['.'] then p
  else if e = ['.', '.'] then
    match p.down with
    | _ :: rest => { p with down := rest }
    | [] => if rooted = false then { p with ups := p.ups + 1 } else p
  else { p with down := e :: p.down }

/-- The shortest path to a place, from its first element on. -/
def Position.render (rooted : Bool) (p : Position) : List Char :=
  (List.replicate p.ups ['.', '.'] ++ p.down.reverse).foldl (pushElement rooted)
    (cleanStart rooted)

/-- The length of the part of the shortest path that goes up. -/
def Position.dotdot (rooted : Bool) (p : Position) : Nat :=
  ((List.replicate p.ups ['.', '.']).foldl (pushElement rooted) (cleanStart rooted)).length

/-- A place below the root of a rooted path has no part that goes up, and the
names that lead down are plain. -/
def Position.valid (rooted : Bool) (p : Position) : Prop :=
  (rooted = true → p.ups = 0) ∧ ∀ n ∈ p.down, isPlainName n

/-- The names that lead from a directory to where the elements `elems` lead
when read inside it, `below` being the names walked down so far, the deepest
one first: an empty element and `.` stay, a name goes down, `..` goes up; there
are none when a `..` is met at the directory itself, which the path would
leave. -/
def walkBelow : List (List Char) → List (List Char) → Option (List (List Char))
  | below, [] => some below.reverse
  | below, e :: rest =>
    if e = [] ∨ e = ['.'] then walkBelow below rest
    else if e = ['.', '.'] then
      match below with
      | [] => none
      | _ :: up => walkBelow up rest
    else walkBelow (e :: below) rest

/-- The path of the names `names` below the directory with the cleaned path
`dir`: the names follow the directory, each after a separator; below `.` the
path starts with the first name. -/
def placedBelow (dir : List Char) (names : List (List Char)) : List Char :=
  if dir = ['.'] ∧ names ≠ [] then (pathOf names).tail else dir ++ pathOf names

/-! ## Sample inputs -/

/-- A world in which every payload decodes to `o`, maps are walked in the order
of their entry list, every file exists, the process exits with `code` and up to
`2^32` bytes can be allocated at once. -/
def sampleWorld (o : ansiblePlaybookStageOptions) (code : Int) : World :=
  { jsonUnmarshal := fun _ => Except.ok o,
    mapRange := fun m => m,
    mapRange_perm := fun m => List.Perm.refl m,
    osStat := fun _ => StatResult.found,
    cmdRun := fun _ => RunResult.exited code "exit status",
    allocLimit := 4294967296,
    allocLimit_lt := by decide }

/-- The world `sampleWorld o 0`, except that maps are walked in the reverse
order of their entry list. -/
def reversedWorld (o : ansiblePlaybookStageOptions) : World :=
  { sampleWorld o 0 with
    mapRange := fun m => m.reverse,
    mapRange_perm := fun m => List.reverse_perm m }

/-- The world `sampleWorld o 0`, except that no file exists. -/
def emptyDiskWorld (o : ansiblePlaybookStageOptions) : World :=
  { sampleWorld o 0 with osStat := fun _ => StatResult.notExist }

/-- The options of the test "valid options". -/
def validOptions : ansiblePlaybookStageOptions :=
  { zeroStageOptions with Playbook := "playbook.yml", Timeout := 300 }

/-- The options `playbook=deploy.yml, inventory=hosts, tags=[deploy, configure],
checkMode=true`. -/
def deployOptions : ansiblePlaybookStageOptions :=
  { zeroStageOptions with
    Playbook := "deploy.yml", Inventory := "hosts", Tags := ["deploy", "configure"],
    CheckMode := true }

/-- The options `playbook=deploy.yml, extraVars={env: production, version: 1.0.0}`. -/
def extraVarsOptions : ansiblePlaybookStageOptions :=
  { zeroStageOptions with
    Playbook := "deploy.yml",
    ExtraVars := [("env", "production"), ("version", "1.0.0")] }

/-- The world `sampleWorld o 0`, except that every path runs through a regular
file used as a directory. -/
def notDirectoryWorld (o : ansiblePlaybookStageOptions) : World :=
  { sampleWorld o 0 with osStat := fun _ => StatResult.notDirectory }

/-- The options `playbook=deploy.yml/x.yml`. -/
def nestedPlaybookOptions : ansiblePlaybookStageOptions :=
  { zeroStageOptions with Playbook := "deploy.yml/x.yml" }

/-- The options `deployOptions` with the largest verbosity that a payload can
hold. -/
def loudDeployOptions : ansiblePlaybookStageOptions :=
  { deployOptions with Verbosity := 9223372036854775807 }

/-- The options of the test "valid options" with the largest verbosity that a
payload can hold. -/
def loudValidOptions : ansiblePlaybookStageOptions :=
  { validOptions with Verbosity := 9223372036854775807 }

/-- The world `w`, except that every payload decodes to `o`. -/
def World.decodingTo (w : World) (o : ansiblePlaybookStageOptions) : World :=
  { w with jsonUnmarshal := fun _ => Except.ok o }

/-- An empty plugin configuration. -/
def emptyConfig : pluginConfig := { AnsiblePath := "", Inventory := "", Vault := "" }

/-- A stage input with source root `/src`. -/
def sampleInput : ExecuteStageInput :=
  { Request := { StageName := "ANSIBLE_PLAYBOOK", StageConfig := "",
                 TargetDeploymentSource := { ApplicationDirectory := "/src" } } }

/-- A world in which no payload decodes, the decoder reporting `e`. -/
def brokenPayloadWorld (e : String) : World :=
  { sampleWorld zeroStageOptions 0 with jsonUnmarshal := fun _ => Except.error e }

/-- A request for two stages. -/
def sampleStagesRequest : BuildPipelineSyncStagesRequest :=
  { Rollback := false,
    Stages := [{ Index := 0, Name := "ANSIBLE_PLAYBOOK", Config := "" },
               { Index := 1, Name := "WAIT", Config := "" }] }

/-- A stage input with source root `/src` for a stage that the plugin does not
define. -/
def otherStageInput : ExecuteStageInput :=
  { Request := { StageName := "WAIT", StageConfig := "",
                 TargetDeploymentSource := { ApplicationDirectory := "/src" } } }

/-! ## Auxiliary facts -/

theorem intercalate_go_eq_foldl (sep : String) (l : List String) (acc : String) :
    String.intercalate.go acc sep l = l.foldl (fun a x => a ++ sep ++ x) acc := by
  induction l generalizing acc with
  | nil => rfl
  | cons x xs ih => simp [String.intercalate.go, ih]

theorem stringsJoin_eq_intercalate (l : List String) (sep : String) :
    stringsJoin l sep = sep.intercalate l := by
  cases l with
  | nil => rfl
  | cons x xs => simp [stringsJoin, String.intercalate, intercalate_go_eq_foldl]

theorem foldl_append_singleton {α β : Type} (f : α → β) (l : List α) (init : List β) :
    l.foldl (fun acc x => acc ++ [f x]) init = init ++ l.map f := by
  induction l generalizing init with
  | nil => simp
  | cons x xs ih => simp [ih]

theorem stringsRepeat_v (n : Nat) :
    stringsRepeat "v" n = String.mk (List.replicate n 'v') := by
  induction n with
  | zero => rfl
  | succ n ih =>
    rw [stringsRepeat, ih, List.replicate_succ']
    rfl

theorem dash_stringsRepeat_v (n : Nat) : "-" ++ stringsRepeat "v" n = verbosityToken n := by
  rw [stringsRepeat_v]
  rfl

theorem ite_append_right {α : Type} (c : Prop) [Decidable c] (a x : List α) :
    (if c then a ++ x else a) = a ++ (if c then x else []) := by
  split <;> simp

/-- The successive `append`s of the code produce the first argument followed by
the documented segments, in the documented order. -/
theorem ansiblePlaybookArgs_segments (w : World) (cfg : pluginConfig)
    (o : ansiblePlaybookStageOptions) (root pb : String) :
    ansiblePlaybookArgs w cfg o root pb =
      [pb] ++ inventoryArgs cfg o root ++ extraVarsArgs w o ++ tagsArgs o ++ skipTagsArgs o
        ++ limitArgs o ++ verbosityArgs o ++ checkArgs o ++ diffArgs o
        ++ vaultArgs cfg o root ++ privateKeyArgs o root ++ remoteUserArgs o
        ++ becomeUserArgs o := by
  unfold ansiblePlaybookArgs
  simp -zeta only [ite_append_right]
  simp only [stringsJoin_eq_intercalate, foldl_append_singleton,
    dash_stringsRepeat_v, List.nil_append, List.length_pos, ite_append_right]
  unfold inventoryArgs extraVarsArgs tagsArgs skipTagsArgs limitArgs verbosityArgs checkArgs
    diffArgs vaultArgs privateKeyArgs remoteUserArgs becomeUserArgs selectedInventory
    selectedVault joinedExtraVars
  simp only [List.append_assoc, ne_eq, ite_not]

theorem ansiblePlaybookArgs_eq (w : World) (cfg : pluginConfig)
    (o : ansiblePlaybookStageOptions) (root : String) :
    ansiblePlaybookArgs w cfg o root (filepathJoin [root, o.Playbook]) =
      documentedArgs w cfg o root := by
  rw [ansiblePlaybookArgs_segments]
  rfl

theorem validate_of_playbook (p : ansiblePlaybookStageOptions) (h : p.Playbook ≠ "") :
    validate p = (if p.Timeout ≤ 0 then { p with Timeout := 600 } else p, none) := by
  unfold validate
  simp [h]

theorem validate_of_no_playbook (p : ansiblePlaybookStageOptions) (h : p.Playbook = "") :
    validate p = (p, some "playbook is required") := by
  unfold validate
  simp [h]

theorem ansiblePlaybookArgs_normalized (w : World) (cfg : pluginConfig)
    (o : ansiblePlaybookStageOptions) (dir pb : String) :
    ansiblePlaybookArgs w cfg (if o.Timeout ≤ 0 then { o with Timeout := 600 } else o) dir pb =
      ansiblePlaybookArgs w cfg o dir pb := by
  split <;> rfl

theorem playbook_normalized (o : ansiblePlaybookStageOptions) :
    (if o.Timeout ≤ 0 then { o with Timeout := 600 } else o).Playbook = o.Playbook := by
  split <;> rfl

theorem verbosity_normalized (o : ansiblePlaybookStageOptions) :
    (if o.Timeout ≤ 0 then { o with Timeout := 600 } else o).Verbosity = o.Verbosity := by
  split <;> rfl

/-- A verbosity within the allocation limit lets `strings.Repeat` return. -/
theorem repeat_returns_of_le (allocLimit : Nat) (n : Int) (h : n ≤ allocLimit) :
    ¬ (0 < n ∧ stringsRepeatReturns allocLimit "v" n = false) := by
  rintro ⟨hpos, hret⟩
  have hsize : "v".utf8ByteSize = 1 := by decide
  simp only [stringsRepeatReturns, hsize, Nat.one_mul, decide_eq_false_iff_not, not_or,
    not_and, Nat.not_le] at hret
  have := hret.2.2 (Int.le_of_lt hpos)
  omega

/-- A verbosity of at least two beyond the allocation limit makes
`strings.Repeat` panic. -/
theorem repeat_panics_of_gt (allocLimit : Nat) (n : Int) (h : (allocLimit : Int) < n)
    (h2 : 2 ≤ n) : 0 < n ∧ stringsRepeatReturns allocLimit "v" n = false := by
  have hsize : "v".utf8ByteSize = 1 := by decide
  refine ⟨by omega, ?_⟩
  simp only [stringsRepeatReturns, hsize, Nat.one_mul, decide_eq_false_iff_not, not_or,
    not_and, Nat.not_le]
  exact ⟨by omega, by omega, fun _ => by omega⟩

/-- A call whose payload decodes to options with a playbook that exists and a
verbosity that `strings.Repeat` can serve runs `commandOf` and maps the error of
the run to its two results. -/
theorem executeAnsiblePlaybook_of_exists (w : World) (cfg : pluginConfig)
    (input : ExecuteStageInput) (opts : ansiblePlaybookStageOptions)
    (hdec : w.jsonUnmarshal input.Request.StageConfig = Except.ok opts)
    (hvalid : opts.Playbook ≠ "")
    (hexists : w.statIsNotExist
      (filepathJoin [input.Request.TargetDeploymentSource.ApplicationDirectory,
        opts.Playbook]) = false)
    (hrepeat : ¬ (0 < opts.Verbosity ∧
      stringsRepeatReturns w.allocLimit "v" opts.Verbosity = false)) :
    (executeAnsiblePlaybook w cfg input).launched =
        some (commandOf w cfg opts input.Request.TargetDeploymentSource.ApplicationDirectory) ∧
      ((w.cmdRun (commandOf w cfg opts
          input.Request.TargetDeploymentSource.ApplicationDirectory)).err = none →
        (executeAnsiblePlaybook w cfg input).response =
            some { Status := StageStatus.StageStatusSuccess } ∧
          (executeAnsiblePlaybook w cfg input).err = none) ∧
      (∀ e, (w.cmdRun (commandOf w cfg opts
          input.Request.TargetDeploymentSource.ApplicationDirectory)).err = some e →
        (executeAnsiblePlaybook w cfg input).response =
            some { Status := StageStatus.StageStatusFailure } ∧
          (executeAnsiblePlaybook w cfg input).err =
            some ("failed to execute ansible-playbook: " ++ e)) := by
  unfold executeAnsiblePlaybook
  simp only [hdec, validate_of_playbook opts hvalid, playbook_normalized, hexists,
    verbosity_normalized, if_neg hrepeat,
    ansiblePlaybookArgs_normalized, Bool.false_eq_true, if_false]
  unfold commandOf
  cases hrun : (w.cmdRun _).err with
  | none => simp
  | some e => simp

/-- A call whose payload decodes to options with a playbook that exists and a
verbosity that `strings.Repeat` cannot serve panics before anything is written
or launched. -/
theorem executeAnsiblePlaybook_of_panic (w : World) (cfg : pluginConfig)
    (input : ExecuteStageInput) (opts : ansiblePlaybookStageOptions)
    (hdec : w.jsonUnmarshal input.Request.StageConfig = Except.ok opts)
    (hvalid : opts.Playbook ≠ "")
    (hexists : w.statIsNotExist
      (filepathJoin [input.Request.TargetDeploymentSource.ApplicationDirectory,
        opts.Playbook]) = false)
    (hpanic : 0 < opts.Verbosity ∧
      stringsRepeatReturns w.allocLimit "v" opts.Verbosity = false) :
    executeAnsiblePlaybook w cfg input =
      { logs := [], launched := none, response := none, err := none, panicked := true } := by
  unfold executeAnsiblePlaybook
  simp only [hdec, validate_of_playbook opts hvalid, playbook_normalized, hexists,
    verbosity_normalized, if_pos hpanic, Bool.false_eq_true, if_false]

/-- A call launches nothing unless the payload decodes to options with a
playbook that exists and a verbosity that `strings.Repeat` can serve. -/
theorem executeAnsiblePlaybook_launched_inv (w : World) (cfg : pluginConfig)
    (input : ExecuteStageInput) (cmd : Cmd)
    (h : (executeAnsiblePlaybook w cfg input).launched = some cmd) :
    ∃ opts, w.jsonUnmarshal input.Request.StageConfig = Except.ok opts ∧
      opts.Playbook ≠ "" ∧
      w.statIsNotExist
        (filepathJoin [input.Request.TargetDeploymentSource.ApplicationDirectory,
          opts.Playbook]) = false ∧
      ¬ (0 < opts.Verbosity ∧
        stringsRepeatReturns w.allocLimit "v" opts.Verbosity = false) ∧
      cmd = commandOf w cfg opts input.Request.TargetDeploymentSource.ApplicationDirectory := by
  cases hdec : w.jsonUnmarshal input.Request.StageConfig with
  | error e =>
    unfold executeAnsiblePlaybook at h
    simp [hdec] at h
  | ok opts =>
    by_cases hp : opts.Playbook = ""
    · unfold executeAnsiblePlaybook at h
      simp [hdec, validate_of_no_playbook opts hp] at h
    · cases hst : w.statIsNotExist
          (filepathJoin [input.Request.TargetDeploymentSource.ApplicationDirectory,
            opts.Playbook]) with
      | true =>
        unfold executeAnsiblePlaybook at h
        simp [hdec, validate_of_playbook opts hp, playbook_normalized, hst] at h
      | false =>
        by_cases hrep : 0 < opts.Verbosity ∧
            stringsRepeatReturns w.allocLimit "v" opts.Verbosity = false
        · rw [executeAnsiblePlaybook_of_panic w cfg input opts hdec hp hst hrep] at h
          simp at h
        · refine ⟨opts, rfl, hp, hst, hrep, ?_⟩
          have h2 := (executeAnsiblePlaybook_of_exists w cfg input opts hdec hp hst hrep).1
          rw [h] at h2
          exact Option.some.inj h2

/-! ## Facts about the decoding -/

theorem foldName_injective_on_fields :
    ∀ f ∈ stageOptionFields, ∀ g ∈ stageOptionFields, foldName f = foldName g → f = g := by
  decide

theorem find?_fold_eq_some (l : List String) (t g : String)
    (hinj : ∀ f ∈ l, ∀ g ∈ l, foldName f = foldName g → f = g) (hg : g ∈ l)
    (ht : foldName g = t) :
    l.find? (fun f => foldName f = t) = some g := by
  induction l with
  | nil => simp at hg
  | cons a l ih =>
    by_cases ha : foldName a = t
    · have : a = g := hinj a (List.mem_cons_self _ _) g hg (ha.trans ht.symm)
      rw [List.find?_cons_of_pos _ (by simpa using ha), this]
    · have hga : g ≠ a := fun h => ha (h ▸ ht)
      have hg2 : g ∈ l := (List.mem_cons.mp hg).resolve_left hga
      rw [List.find?_cons_of_neg _ (by simpa using ha)]
      exact ih (fun f hf g hg => hinj f (List.mem_cons_of_mem _ hf) g (List.mem_cons_of_mem _ hg))
        hg2

/-- A key denotes a field exactly when it equals the name of the field after
folding. -/
theorem findField_eq_some_iff (key field : String) (hf : field ∈ stageOptionFields) :
    findField key = some field ↔ foldName key = foldName field := by
  unfold findField
  by_cases hk : key ∈ stageOptionFields
  · simp only [hk, if_true, Option.some.injEq]
    exact ⟨fun h => by rw [h], fun h => foldName_injective_on_fields key hk field hf h⟩
  · simp only [hk, if_false]
    constructor
    · intro h
      have h2 : foldName field = foldName key := by simpa using List.find?_some h
      exact h2.symm
    · intro h
      exact find?_fold_eq_some _ _ _ foldName_injective_on_fields hf h.symm

theorem findField_mem (key field : String) (h : findField key = some field) :
    field ∈ stageOptionFields := by
  unfold findField at h
  by_cases hk : key ∈ stageOptionFields
  · simp only [hk, if_true, Option.some.injEq] at h
    exact h ▸ hk
  · simp only [hk, if_false] at h
    exact List.mem_of_find?_eq_some h

/-- A key that equals no field name after folding denotes no field. -/
theorem findField_eq_none (key : String)
    (h : ∀ field ∈ stageOptionFields, foldName key ≠ foldName field) :
    findField key = none := by
  cases hk : findField key with
  | none => rfl
  | some field =>
    exact absurd ((findField_eq_some_iff key field (findField_mem key field hk)).mp hk)
      (h field (findField_mem key field hk))

theorem decodeEntry_of_none (st : DecodeState) (e : String × JsonValue)
    (h : findField e.1 = none) : decodeEntry st e = st := by
  unfold decodeEntry
  rw [h]

/-- The decoding of one value touches the fields as follows. -/
theorem decodeField_opts (st : DecodeState) (f : String) (v : JsonValue) :
    (decodeField st f v).opts =
      { Playbook := if f = "playbook" then (storeString st.opts.Playbook v).1
          else st.opts.Playbook,
        Inventory := if f = "inventory" then (storeString st.opts.Inventory v).1
          else st.opts.Inventory,
        ExtraVars := if f = "extraVars" then (storeStringMap st.opts.ExtraVars v).1
          else st.opts.ExtraVars,
        Tags := if f = "tags" then (storeStrings st.opts.Tags st.tagsSpare v).1
          else st.opts.Tags,
        SkipTags := if f = "skipTags" then (storeStrings st.opts.SkipTags st.skipTagsSpare v).1
          else st.opts.SkipTags,
        Limit := if f = "limit" then (storeString st.opts.Limit v).1 else st.opts.Limit,
        Verbosity := if f = "verbosity" then (storeInt st.opts.Verbosity v).1
          else st.opts.Verbosity,
        CheckMode := if f = "checkMode" then (storeBool st.opts.CheckMode v).1
          else st.opts.CheckMode,
        DiffMode := if f = "diffMode" then (storeBool st.opts.DiffMode v).1
          else st.opts.DiffMode,
        Vault := if f = "vault" then (storeString st.opts.Vault v).1 else st.opts.Vault,
        PrivateKey := if f = "privateKey" then (storeString st.opts.PrivateKey v).1
          else st.opts.PrivateKey,
        RemoteUser := if f = "remoteUser" then (storeString st.opts.RemoteUser v).1
          else st.opts.RemoteUser,
        BecomeUser := if f = "becomeUser" then (storeString st.opts.BecomeUser v).1
          else st.opts.BecomeUser,
        Timeout := if f = "timeout" then (storeInt st.opts.Timeout v).1
          else st.opts.Timeout } := by
  by_cases hf : f ∈ stageOptionFields
  · simp only [stageOptionFields, List.mem_cons, List.mem_singleton, List.not_mem_nil,
      or_false] at hf
    rcases hf with h | h | h | h | h | h | h | h | h | h | h | h | h | h <;>
      subst h <;> simp [decodeField]
  · simp only [stageOptionFields, List.mem_cons, List.mem_singleton, List.not_mem_nil,
      or_false, not_or] at hf
    simp [decodeField, hf]

/-- The decoding of one value touches the backing arrays as follows. -/
theorem decodeField_spare (st : DecodeState) (f : String) (v : JsonValue) :
    (decodeField st f v).tagsSpare =
        (if f = "tags" then (storeStrings st.opts.Tags st.tagsSpare v).2.1
          else st.tagsSpare) ∧
      (decodeField st f v).skipTagsSpare =
        (if f = "skipTags" then (storeStrings st.opts.SkipTags st.skipTagsSpare v).2.1
          else st.skipTagsSpare) := by
  by_cases hf : f ∈ stageOptionFields
  · simp only [stageOptionFields, List.mem_cons, List.mem_singleton, List.not_mem_nil,
      or_false] at hf
    rcases hf with h | h | h | h | h | h | h | h | h | h | h | h | h | h <;>
      subst h <;> simp [decodeField]
  · simp only [stageOptionFields, List.mem_cons, List.mem_singleton, List.not_mem_nil,
      or_false, not_or] at hf
    simp [decodeField, hf]

theorem saveError_none (saved : Option String) : saveError saved none = saved := by
  cases saved <;> rfl

theorem storeString_err (old : String) (v : JsonValue) (h : stringTyped v = true) :
    (storeString old v).2 = none := by
  cases v with
  | scalar s => cases s <;> simp_all [storeString, storeStringScalar, stringTyped]
  | array _ => simp [stringTyped] at h
  | object _ => simp [stringTyped] at h

theorem storeInt_err (old : Int) (v : JsonValue) (h : intTyped v = true) :
    (storeInt old v).2 = none := by
  cases v with
  | scalar s => cases s <;> simp_all [storeInt, intTyped]
  | array _ => simp [intTyped] at h
  | object _ => simp [intTyped] at h

theorem storeBool_err (old : Bool) (v : JsonValue) (h : boolTyped v = true) :
    (storeBool old v).2 = none := by
  cases v with
  | scalar s => cases s <;> simp_all [storeBool, boolTyped]
  | array _ => simp [boolTyped] at h
  | object _ => simp [boolTyped] at h

theorem storeStringItem_err (old : String) (e : JsonItem) (h : itemTyped e = true) :
    (storeStringItem old e).2 = none := by
  cases e with
  | scalar s => cases s <;> simp_all [storeStringItem, storeStringScalar, itemTyped]
  | nestedArray => simp [itemTyped] at h
  | nestedObject => simp [itemTyped] at h

theorem storeStringElems_err (old : List String) (elems : List JsonItem) (i : Nat)
    (h : elems.all itemTyped = true) : (storeStringElems old i elems).2 = none := by
  induction elems generalizing i with
  | nil => rfl
  | cons e rest ih =>
    simp only [List.all_cons, Bool.and_eq_true] at h
    simp only [storeStringElems, storeStringItem_err _ e h.1, ih (i + 1) h.2]
    rfl

theorem storeStrings_err (old spare : List String) (v : JsonValue)
    (h : stringsTyped v = true) : (storeStrings old spare v).2.2 = none := by
  cases v with
  | scalar s => cases s <;> simp_all [storeStrings, stringsTyped]
  | array elems =>
    unfold storeStrings
    by_cases he : elems = []
    · simp [he]
    · simp only [he, if_false]
      exact storeStringElems_err _ elems 0 h
  | object _ => simp [stringsTyped] at h

theorem storeStringItem_val (e : JsonItem) : (storeStringItem "" e).1 = documentedItem e := by
  cases e with
  | scalar s => cases s <;> rfl
  | nestedArray => rfl
  | nestedObject => rfl

/-- Decoding the entries of an object of strings into a map drops the entries of
the map whose key comes in the object and appends the entries of the object
that count. -/
theorem storeStringMap_fold (entries : List (String × JsonItem))
    (acc : List (String × String)) (err : Option String)
    (htyped : entries.all (fun e => itemTyped e.2) = true) :
    entries.foldl
        (fun acc e => (mapSet acc.1 e.1 (storeStringItem "" e.2).1,
          saveError acc.2 (storeStringItem "" e.2).2))
        (acc, err) =
      (acc.filter (fun a => !entries.any (fun x => x.1 = a.1))
        ++ (lastEntries entries).map (fun e => (e.1, documentedItem e.2)), err) := by
  induction entries generalizing acc err with
  | nil => simp [lastEntries]
  | cons e rest ih =>
    simp only [List.all_cons, Bool.and_eq_true] at htyped
    rw [List.foldl_cons, storeStringItem_err "" e.2 htyped.1, saveError_none,
      ih _ _ htyped.2, storeStringItem_val]
    congr 1
    have hlast : lastEntries (e :: rest) =
        if rest.any (fun x => x.1 = e.1) then lastEntries rest else e :: lastEntries rest :=
      rfl
    rw [hlast]
    unfold mapSet
    rw [List.filter_append, List.filter_filter]
    have hfilter : List.filter
        (fun a : String × String =>
          (!rest.any (fun x => decide (x.1 = a.1))) && decide (a.1 ≠ e.1)) acc =
        List.filter (fun a => !(e :: rest).any (fun x => decide (x.1 = a.1))) acc := by
      apply List.filter_congr
      intro a _
      by_cases hae : a.1 = e.1
      · simp [hae]
      · have hea : ¬ e.1 = a.1 := fun h => hae h.symm
        simp [hae, hea]
    rw [hfilter]
    by_cases hk : rest.any (fun x => decide (x.1 = e.1)) = true
    · simp [hk]
    · simp [hk]

theorem storeStringMap_spec (v : JsonValue) (h : mapTyped v = true) :
    storeStringMap [] v = (documentedMap (some v), none) := by
  cases v with
  | scalar s => cases s <;> simp_all [storeStringMap, mapTyped, documentedMap]
  | array _ => simp [mapTyped] at h
  | object entries =>
    simp only [mapTyped] at h
    simp only [storeStringMap, documentedMap]
    rw [storeStringMap_fold entries [] none h]
    simp

theorem storeString_val (v : JsonValue) : (storeString "" v).1 = documentedString (some v) := by
  cases v with
  | scalar s => cases s <;> rfl
  | array _ => rfl
  | object _ => rfl

theorem storeBool_val (v : JsonValue) : (storeBool false v).1 = documentedBool (some v) := by
  cases v with
  | scalar s => cases s <;> rfl
  | array _ => rfl
  | object _ => rfl

theorem storeInt_val (v : JsonValue) (h : intTyped v = true) :
    (storeInt 0 v).1 = documentedInt (some v) := by
  cases v with
  | scalar s => cases s <;> simp_all [storeInt, intTyped, documentedInt]
  | array _ => rfl
  | object _ => rfl

theorem storeStringElems_val (elems : List JsonItem) (i : Nat) :
    (storeStringElems [] i elems).1 = elems.map documentedItem := by
  induction elems generalizing i with
  | nil => rfl
  | cons e rest ih =>
    simp only [storeStringElems, List.map_cons, ih (i + 1)]
    congr 1
    simpa using storeStringItem_val e

theorem storeStrings_val (v : JsonValue) :
    (storeStrings [] [] v).1 = documentedStrings (some v) ∧
      (storeStrings [] [] v).2.1 = [] := by
  cases v with
  | scalar s => cases s <;> exact ⟨rfl, rfl⟩
  | array elems =>
    unfold storeStrings
    by_cases he : elems = []
    · simp [he, documentedStrings]
    · simp only [he, if_false, List.append_nil, List.drop_nil, and_true]
      exact storeStringElems_val elems 0
  | object _ => exact ⟨rfl, rfl⟩

theorem storeStringMap_fold_err (entries : List (String × JsonItem))
    (acc : List (String × String)) (err : Option String)
    (htyped : entries.all (fun e => itemTyped e.2) = true) :
    (entries.foldl
        (fun acc e => (mapSet acc.1 e.1 (storeStringItem "" e.2).1,
          saveError acc.2 (storeStringItem "" e.2).2))
        (acc, err)).2 = err := by
  induction entries generalizing acc err with
  | nil => rfl
  | cons e rest ih =>
    simp only [List.all_cons, Bool.and_eq_true] at htyped
    rw [List.foldl_cons, ih _ _ htyped.2, storeStringItem_err "" e.2 htyped.1, saveError_none]

theorem storeStringMap_err (old : List (String × String)) (v : JsonValue)
    (h : mapTyped v = true) : (storeStringMap old v).2 = none := by
  cases v with
  | scalar s => cases s <;> simp_all [storeStringMap, mapTyped]
  | array _ => simp [mapTyped] at h
  | object entries =>
    simp only [mapTyped] at h
    exact storeStringMap_fold_err entries old none h

theorem decodeField_err (st : DecodeState) (f : String) (v : JsonValue)
    (h : wellTyped f v = true) : (decodeField st f v).err = st.err := by
  by_cases hf : f ∈ stageOptionFields
  · simp only [stageOptionFields, List.mem_cons, List.mem_singleton, List.not_mem_nil,
      or_false] at hf
    rcases hf with h1 | h1 | h1 | h1 | h1 | h1 | h1 | h1 | h1 | h1 | h1 | h1 | h1 | h1 <;>
      subst h1 <;> simp [wellTyped] at h <;>
      first
      | simp [decodeField, storeString_err _ _ h, saveError_none]
      | simp [decodeField, storeInt_err _ _ h, saveError_none]
      | simp [decodeField, storeBool_err _ _ h, saveError_none]
      | simp [decodeField, storeStrings_err _ _ _ h, saveError_none]
      | simp [decodeField, storeStringMap_err _ _ h, saveError_none]
  · simp only [stageOptionFields, List.mem_cons, List.mem_singleton, List.not_mem_nil,
      or_false, not_or] at hf
    simp [decodeField, hf]

theorem decodeEntry_err (st : DecodeState) (e : String × JsonValue)
    (h : ∀ field ∈ stageOptionFields, foldName e.1 = foldName field →
      wellTyped field e.2 = true) :
    (decodeEntry st e).err = st.err := by
  unfold decodeEntry
  cases hk : findField e.1 with
  | none => rfl
  | some field =>
    have hm := findField_mem e.1 field hk
    exact decodeField_err st field e.2
      (h field hm ((findField_eq_some_iff e.1 field hm).mp hk))

theorem foldl_decodeEntry_err (entries : List (String × JsonValue)) (st : DecodeState)
    (h : ∀ e ∈ entries, ∀ field ∈ stageOptionFields, foldName e.1 = foldName field →
      wellTyped field e.2 = true) :
    (entries.foldl decodeEntry st).err = st.err := by
  induction entries generalizing st with
  | nil => rfl
  | cons e rest ih =>
    rw [List.foldl_cons, ih _ (fun x hx => h x (List.mem_cons_of_mem _ hx)),
      decodeEntry_err st e (h e (List.mem_cons_self _ _))]

/-- A projection that only the field `field` touches ends up, after a payload in
which at most one entry denotes that field, at what that entry stores into its
initial value. -/
theorem foldl_decodeEntry_field {α : Type} (π : DecodeState → α) (d : α → JsonValue → α)
    (field : String)
    (hstep : ∀ st f v, π (decodeField st f v) = if f = field then d (π st) v else π st)
    (entries : List (String × JsonValue))
    (hunique : entries.Pairwise
      (fun a b => ¬ (findField a.1 = some field ∧ findField b.1 = some field)))
    (st : DecodeState) :
    π (entries.foldl decodeEntry st) =
      match entries.find? (fun e => decide (findField e.1 = some field)) with
      | some e => d (π st) e.2
      | none => π st := by
  induction entries generalizing st with
  | nil => rfl
  | cons e rest ih =>
    rw [List.pairwise_cons] at hunique
    rw [List.foldl_cons, ih hunique.2]
    by_cases he : findField e.1 = some field
    · have hnone : rest.find? (fun e => decide (findField e.1 = some field)) = none := by
        rw [List.find?_eq_none]
        intro x hx
        simpa using fun hx2 => hunique.1 x hx ⟨he, hx2⟩
      rw [hnone, List.find?_cons_of_pos _ (by simpa using he)]
      simp only [decodeEntry, he, hstep, if_true]
    · rw [List.find?_cons_of_neg _ (by simpa using he)]
      have hsame : π (decodeEntry st e) = π st := by
        unfold decodeEntry
        cases hk : findField e.1 with
        | none => rfl
        | some f =>
          have : f ≠ field := fun hf => he (hk.trans (by rw [hf]))
          simp [hstep, this]
      rw [hsame]

theorem decoded_field {α β : Type} (π : DecodeState → α) (d : α → JsonValue → α)
    (post : α → β) (doc : Option JsonValue → β) (field : String)
    (hf : field ∈ stageOptionFields)
    (hstep : ∀ st f v, π (decodeField st f v) = if f = field then d (π st) v else π st)
    (hnone : post (π initialDecodeState) = doc none)
    (hsome : ∀ v, wellTyped field v = true →
      post (d (π initialDecodeState) v) = doc (some v))
    (entries : List (String × JsonValue)) (h : wellFormedPayload entries) :
    post (π (jsonUnmarshalObject entries)) = doc (entryFor entries field) := by
  have hpred : (fun e : String × JsonValue => decide (findField e.1 = some field)) =
      (fun e => decide (foldName e.1 = foldName field)) := by
    funext e
    simp [findField_eq_some_iff e.1 field hf]
  have hunique : entries.Pairwise
      (fun a b => ¬ (findField a.1 = some field ∧ findField b.1 = some field)) := by
    refine h.1.imp ?_
    intro a b hab hboth
    exact hab field hf ⟨(findField_eq_some_iff a.1 field hf).mp hboth.1,
      (findField_eq_some_iff b.1 field hf).mp hboth.2⟩
  unfold jsonUnmarshalObject entryFor
  rw [foldl_decodeEntry_field π d field hstep entries hunique, hpred]
  cases hfind : entries.find? (fun e => decide (foldName e.1 = foldName field)) with
  | none => exact hnone
  | some e =>
    have hmem := List.mem_of_find?_eq_some hfind
    have hname : foldName e.1 = foldName field := by simpa using List.find?_some hfind
    exact hsome e.2 (h.2 e hmem field hf hname)

theorem stageOptions_ext (a b : ansiblePlaybookStageOptions)
    (h1 : a.Playbook = b.Playbook) (h2 : a.Inventory = b.Inventory)
    (h3 : a.ExtraVars = b.ExtraVars) (h4 : a.Tags = b.Tags) (h5 : a.SkipTags = b.SkipTags)
    (h6 : a.Limit = b.Limit) (h7 : a.Verbosity = b.Verbosity) (h8 : a.CheckMode = b.CheckMode)
    (h9 : a.DiffMode = b.DiffMode) (h10 : a.Vault = b.Vault)
    (h11 : a.PrivateKey = b.PrivateKey) (h12 : a.RemoteUser = b.RemoteUser)
    (h13 : a.BecomeUser = b.BecomeUser) (h14 : a.Timeout = b.Timeout) : a = b := by
  cases a
  cases b
  simp_all

theorem jsonUnmarshalObject_tags (entries : List (String × JsonValue))
    (h : wellFormedPayload entries) :
    ((jsonUnmarshalObject entries).opts.Tags, (jsonUnmarshalObject entries).tagsSpare) =
      (documentedStrings (entryFor entries "tags"), []) :=
  decoded_field (fun st => (st.opts.Tags, st.tagsSpare))
    (fun p v => ((storeStrings p.1 p.2 v).1, (storeStrings p.1 p.2 v).2.1))
    id (fun v => (documentedStrings v, [])) "tags" (by decide)
    (fun st f v => by
      beta_reduce
      rw [decodeField_opts, (decodeField_spare st f v).1]
      by_cases hf : f = "tags" <;> simp [hf])
    rfl (fun v _ => Prod.ext (storeStrings_val v).1 (storeStrings_val v).2) entries h

theorem jsonUnmarshalObject_skipTags (entries : List (String × JsonValue))
    (h : wellFormedPayload entries) :
    ((jsonUnmarshalObject entries).opts.SkipTags,
        (jsonUnmarshalObject entries).skipTagsSpare) =
      (documentedStrings (entryFor entries "skipTags"), []) :=
  decoded_field (fun st => (st.opts.SkipTags, st.skipTagsSpare))
    (fun p v => ((storeStrings p.1 p.2 v).1, (storeStrings p.1 p.2 v).2.1))
    id (fun v => (documentedStrings v, [])) "skipTags" (by decide)
    (fun st f v => by
      beta_reduce
      rw [decodeField_opts, (decodeField_spare st f v).2]
      by_cases hf : f = "skipTags" <;> simp [hf])
    rfl (fun v _ => Prod.ext (storeStrings_val v).1 (storeStrings_val v).2) entries h

theorem jsonUnmarshalObject_opts (entries : List (String × JsonValue))
    (h : wellFormedPayload entries) :
    (jsonUnmarshalObject entries).opts = documentedDecode entries := by
  apply stageOptions_ext
  · exact decoded_field (fun st => st.opts.Playbook) (fun old v => (storeString old v).1)
      id documentedString "playbook" (by decide)
      (fun st f v => by beta_reduce; rw [decodeField_opts]) rfl
      (fun v _ => storeString_val v) entries h
  · exact decoded_field (fun st => st.opts.Inventory) (fun old v => (storeString old v).1)
      id documentedString "inventory" (by decide)
      (fun st f v => by beta_reduce; rw [decodeField_opts]) rfl
      (fun v _ => storeString_val v) entries h
  · exact decoded_field (fun st => st.opts.ExtraVars) (fun old v => (storeStringMap old v).1)
      id documentedMap "extraVars" (by decide)
      (fun st f v => by beta_reduce; rw [decodeField_opts]) rfl
      (fun v hv => by
        have hm : mapTyped v = true := by simpa [wellTyped] using hv
        exact congrArg Prod.fst (storeStringMap_spec v hm)) entries h
  · exact congrArg Prod.fst (jsonUnmarshalObject_tags entries h)
  · exact congrArg Prod.fst (jsonUnmarshalObject_skipTags entries h)
  · exact decoded_field (fun st => st.opts.Limit) (fun old v => (storeString old v).1)
      id documentedString "limit" (by decide)
      (fun st f v => by beta_reduce; rw [decodeField_opts]) rfl
      (fun v _ => storeString_val v) entries h
  · exact decoded_field (fun st => st.opts.Verbosity) (fun old v => (storeInt old v).1)
      id documentedInt "verbosity" (by decide)
      (fun st f v => by beta_reduce; rw [decodeField_opts]) rfl
      (fun v hv => storeInt_val v (by simpa [wellTyped] using hv)) entries h
  · exact decoded_field (fun st => st.opts.CheckMode) (fun old v => (storeBool old v).1)
      id documentedBool "checkMode" (by decide)
      (fun st f v => by beta_reduce; rw [decodeField_opts]) rfl
      (fun v _ => storeBool_val v) entries h
  · exact decoded_field (fun st => st.opts.DiffMode) (fun old v => (storeBool old v).1)
      id documentedBool "diffMode" (by decide)
      (fun st f v => by beta_reduce; rw [decodeField_opts]) rfl
      (fun v _ => storeBool_val v) entries h
  · exact decoded_field (fun st => st.opts.Vault) (fun old v => (storeString old v).1)
      id documentedString "vault" (by decide)
      (fun st f v => by beta_reduce; rw [decodeField_opts]) rfl
      (fun v _ => storeString_val v) entries h
  · exact decoded_field (fun st => st.opts.PrivateKey) (fun old v => (storeString old v).1)
      id documentedString "privateKey" (by decide)
      (fun st f v => by beta_reduce; rw [decodeField_opts]) rfl
      (fun v _ => storeString_val v) entries h
  · exact decoded_field (fun st => st.opts.RemoteUser) (fun old v => (storeString old v).1)
      id documentedString "remoteUser" (by decide)
      (fun st f v => by beta_reduce; rw [decodeField_opts]) rfl
      (fun v _ => storeString_val v) entries h
  · exact decoded_field (fun st => st.opts.BecomeUser) (fun old v => (storeString old v).1)
      id documentedString "becomeUser" (by decide)
      (fun st f v => by beta_reduce; rw [decodeField_opts]) rfl
      (fun v _ => storeString_val v) entries h
  · exact decoded_field (fun st => st.opts.Timeout) (fun old v => (storeInt old v).1)
      id documentedInt "timeout" (by decide)
      (fun st f v => by beta_reduce; rw [decodeField_opts]) rfl
      (fun v hv => storeInt_val v (by simpa [wellTyped] using hv)) entries h

/-- A slice that is decoded again reuses its backing array, and `null` leaves a
slot as it is: after `[a, b]` and `[c]`, the array `[x, null]` gives `[x, b]`. -/
theorem jsonUnmarshalObject_tags_reused :
    (jsonUnmarshalObject
      [("tags", .array [.scalar (.string "a"), .scalar (.string "b")]),
       ("tags", .array [.scalar (.string "c")]),
       ("tags", .array [.scalar (.string "x"), .scalar .null])]).opts.Tags = ["x", "b"] := by
  decide

/-- The type error of a number that does not fit the field names the literal. -/
theorem jsonUnmarshalObject_verbosity_range :
    (jsonUnmarshalObject [("verbosity", .scalar (.integer 9223372036854775808))]).err =
        some "number 9223372036854775808" ∧
      (jsonUnmarshalObject [("verbosity", .scalar (.fraction "1.5"))]).err =
        some "number 1.5" ∧
      (jsonUnmarshalObject [("playbook", .scalar (.integer 7))]).err = some "number" := by
  decide

/-! ## Facts about `filepath.Clean` and `filepath.Join` -/

theorem takeWhile_append_sep (e t : List Char) (he : '/' ∉ e)
    (ht : t = [] ∨ t.head? = some '/') :
    (e ++ t).takeWhile (fun x => decide (x ≠ '/')) = e ∧
      (e ++ t).dropWhile (fun x => decide (x ≠ '/')) = t := by
  induction e with
  | nil =>
    rcases ht with rfl | ht
    · simp
    · cases t with
      | nil => simp
      | cons c t =>
        simp only [List.head?_cons, Option.some.injEq] at ht
        subst ht
        simp
  | cons c e ih =>
    have hc : c ≠ '/' := fun h => he (h ▸ List.mem_cons_self _ _)
    have he2 : '/' ∉ e := fun h => he (List.mem_cons_of_mem _ h)
    have ih2 := ih he2
    rw [List.cons_append, List.takeWhile_cons_of_pos (by simpa using hc),
      List.dropWhile_cons_of_pos (by simpa using hc), ih2.1, ih2.2]
    exact ⟨rfl, rfl⟩

theorem pathOf_cons (e : List Char) (elems : List (List Char)) :
    pathOf (e :: elems) = '/' :: (e ++ pathOf elems) := by
  simp [pathOf]

theorem length_pathOf_cons (e : List Char) (elems : List (List Char)) :
    (pathOf (e :: elems)).length = 1 + e.length + (pathOf elems).length := by
  rw [pathOf_cons, List.length_cons, List.length_append]
  omega

theorem pathOf_head (elems : List (List Char)) :
    pathOf elems = [] ∨ (pathOf elems).head? = some '/' := by
  cases elems with
  | nil => exact Or.inl rfl
  | cons e elems => exact Or.inr (by simp [pathOf])

theorem splitSep_ne_nil (l : List Char) : splitSep l ≠ [] := by
  induction l with
  | nil => simp [splitSep]
  | cons c rest ih =>
    unfold splitSep
    by_cases hc : c = '/'
    · simp [hc]
    · simp only [hc, if_false]
      cases h : splitSep rest <;> simp

theorem pathOf_splitSep (l : List Char) : pathOf (splitSep l) = '/' :: l := by
  induction l with
  | nil => simp [splitSep, pathOf]
  | cons c rest ih =>
    unfold splitSep
    by_cases hc : c = '/'
    · simp only [hc, if_true]
      rw [pathOf_cons, ih]
      rfl
    · simp only [hc, if_false]
      cases h : splitSep rest with
      | nil => exact absurd h (splitSep_ne_nil rest)
      | cons e elems =>
        rw [h, pathOf_cons] at ih
        simp only [pathOf_cons]
        simp only [List.cons.injEq, true_and] at ih
        rw [List.cons_append, ih]

theorem splitSep_no_sep (l : List Char) : ∀ e ∈ splitSep l, '/' ∉ e := by
  induction l with
  | nil => simp [splitSep]
  | cons c rest ih =>
    unfold splitSep
    by_cases hc : c = '/'
    · simp only [hc, if_true, List.mem_cons]
      rintro e (rfl | he)
      · simp
      · exact ih e he
    · simp only [hc, if_false]
      cases h : splitSep rest with
      | nil => exact absurd h (splitSep_ne_nil rest)
      | cons e elems =>
        rw [h] at ih
        simp only [List.mem_cons]
        rintro x (rfl | hx)
        · have := ih e (List.mem_cons_self _ _)
          simp only [List.mem_cons, not_or]
          exact ⟨fun h => hc h.symm, this⟩
        · exact ih x (List.mem_cons_of_mem _ hx)

theorem pathOf_append (a b : List (List Char)) : pathOf (a ++ b) = pathOf a ++ pathOf b := by
  simp [pathOf]

theorem pathOf_injective (a b : List (List Char)) (ha : ∀ e ∈ a, '/' ∉ e)
    (hb : ∀ e ∈ b, '/' ∉ e) (h : pathOf a = pathOf b) : a = b := by
  induction a generalizing b with
  | nil =>
    cases b with
    | nil => rfl
    | cons y b => simp [pathOf] at h
  | cons x a ih =>
    cases b with
    | nil => simp [pathOf] at h
    | cons y b =>
      rw [pathOf_cons, pathOf_cons] at h
      have h2 : x ++ pathOf a = y ++ pathOf b := List.tail_eq_of_cons_eq h
      have hx := takeWhile_append_sep x (pathOf a) (ha x (List.mem_cons_self _ _)) (pathOf_head a)
      have hy := takeWhile_append_sep y (pathOf b) (hb y (List.mem_cons_self _ _)) (pathOf_head b)
      rw [h2] at hx
      have hxy : x = y := hx.1.symm.trans hy.1
      have hab : pathOf a = pathOf b := hx.2.symm.trans hy.2
      rw [hxy, ih b (fun e he => ha e (List.mem_cons_of_mem _ he))
        (fun e he => hb e (List.mem_cons_of_mem _ he)) hab]

theorem cleanLoop_sep (rooted : Bool) (fuel : Nat) (t out : List Char) (dotdot : Nat) :
    cleanLoop rooted (fuel + 1) ('/' :: t) out dotdot = cleanLoop rooted fuel t out dotdot := by
  simp [cleanLoop]

theorem cleanLoop_dot (rooted : Bool) (fuel : Nat) (t out : List Char) (dotdot : Nat)
    (ht : t = [] ∨ t.head? = some '/') :
    cleanLoop rooted (fuel + 1) ('.' :: t) out dotdot = cleanLoop rooted fuel t out dotdot := by
  rw [cleanLoop]
  simp [ht]

theorem cleanLoop_dotdot (rooted : Bool) (fuel : Nat) (t out : List Char) (dotdot : Nat)
    (ht : t = [] ∨ t.head? = some '/') :
    cleanLoop rooted (fuel + 1) ('.' :: '.' :: t) out dotdot =
      cleanLoop rooted fuel t (cleanStep rooted (out, dotdot) ['.', '.']).1
        (cleanStep rooted (out, dotdot) ['.', '.']).2 := by
  rw [cleanLoop]
  have h1 : ¬ ('.' = '/') := by decide
  have h2 : ¬ ('.' = '.' ∧ ('.' :: t = [] ∨ ('.' :: t).head? = some '/')) := by simp
  have h3 : '.' = '.' ∧ ('.' :: t).head? = some '.' ∧
      (('.' :: t).tail = [] ∨ ('.' :: t).tail.head? = some '/') := ⟨rfl, rfl, ht⟩
  rw [if_neg h1, if_neg h2, if_pos h3]
  simp only [List.tail_cons]
  unfold cleanStep
  have h4 : ¬ (['.', '.'] = ([] : List Char) ∨ ['.', '.'] = ['.']) := by decide
  simp only [if_neg h4, if_true]
  by_cases hd : dotdot < out.length
  · simp only [hd, if_true]
  · simp only [hd, if_false]
    cases rooted with
    | true => simp
    | false =>
      have hpush : pushElement false out ['.', '.'] =
          (if 0 < out.length then out ++ ['/'] else out) ++ ['.', '.'] := by
        unfold pushElement
        by_cases h0 : out.length = 0
        · simp [h0]
        · have : 0 < out.length := Nat.pos_of_ne_zero h0
          simp [h0, this]
      simp only [if_true, hpush]

theorem cleanLoop_name (rooted : Bool) (fuel : Nat) (e t out : List Char) (dotdot : Nat)
    (he : isPlainName e) (ht : t = [] ∨ t.head? = some '/') :
    cleanLoop rooted (fuel + 1) (e ++ t) out dotdot =
      cleanLoop rooted fuel t (pushElement rooted out e) dotdot := by
  obtain ⟨hne, hdot, hdotdot, hsep⟩ := he
  have htd := takeWhile_append_sep e t hsep ht
  cases e with
  | nil => exact absurd rfl hne
  | cons c e =>
    have hc : c ≠ '/' := fun h => hsep (h ▸ List.mem_cons_self _ _)
    rw [List.cons_append] at htd ⊢
    have h1 : ¬ (c = '.' ∧ (e ++ t = [] ∨ (e ++ t).head? = some '/')) := by
      rintro ⟨rfl, h⟩
      cases e with
      | nil => exact hdot rfl
      | cons c2 e2 =>
        have hc2 : c2 ≠ '/' := fun h =>
          hsep (h ▸ List.mem_cons_of_mem _ (List.mem_cons_self _ _))
        simp at h
        exact hc2 h
    have h2 : ¬ (c = '.' ∧ (e ++ t).head? = some '.' ∧
        ((e ++ t).tail = [] ∨ (e ++ t).tail.head? = some '/')) := by
      rintro ⟨rfl, hh, h⟩
      cases e with
      | nil => exact hdot rfl
      | cons c2 e2 =>
        simp only [List.cons_append, List.head?_cons, Option.some.injEq] at hh
        subst hh
        cases e2 with
        | nil => exact hdotdot rfl
        | cons c3 e3 =>
          have hc3 : c3 ≠ '/' := fun h =>
            hsep (h ▸ List.mem_cons_of_mem _ (List.mem_cons_of_mem _ (List.mem_cons_self _ _)))
          simp at h
          exact hc3 h
    rw [cleanLoop]
    simp only [hc, if_false]
    rw [if_neg h1, if_neg h2, htd.1, htd.2]
    rfl

/-- The loop of `filepath.Clean` treats the elements of a path one after the
other. -/
theorem cleanLoop_pathOf (rooted : Bool) (elems : List (List Char)) (fuel : Nat)
    (out : List Char) (dotdot : Nat) (hsep : ∀ e ∈ elems, '/' ∉ e)
    (hfuel : (pathOf elems).length ≤ fuel) :
    cleanLoop rooted fuel (pathOf elems) out dotdot =
      (elems.foldl (cleanStep rooted) (out, dotdot)).1 := by
  induction elems generalizing fuel out dotdot with
  | nil => cases fuel <;> simp [pathOf, cleanLoop]
  | cons e elems ih =>
    have hsep2 : ∀ x ∈ elems, '/' ∉ x := fun x hx => hsep x (List.mem_cons_of_mem _ hx)
    rw [length_pathOf_cons] at hfuel
    rw [pathOf_cons, List.foldl_cons]
    obtain ⟨fuel1, rfl⟩ : ∃ k, fuel = k + 1 := ⟨fuel - 1, by omega⟩
    rw [cleanLoop_sep]
    by_cases h0 : e = []
    · subst h0
      rw [List.nil_append, ih fuel1 _ _ hsep2 (by simp at hfuel; omega)]
      simp [cleanStep]
    · by_cases h1 : e = ['.']
      · subst h1
        obtain ⟨fuel2, rfl⟩ : ∃ k, fuel1 = k + 1 := ⟨fuel1 - 1, by simp at hfuel; omega⟩
        rw [List.singleton_append, cleanLoop_dot _ _ _ _ _ (pathOf_head elems),
          ih fuel2 _ _ hsep2 (by simp at hfuel; omega)]
        simp [cleanStep]
      · by_cases h2 : e = ['.', '.']
        · subst h2
          obtain ⟨fuel2, rfl⟩ : ∃ k, fuel1 = k + 1 := ⟨fuel1 - 1, by simp at hfuel; omega⟩
          rw [show ['.', '.'] ++ pathOf elems = '.' :: '.' :: pathOf elems from rfl,
            cleanLoop_dotdot _ _ _ _ _ (pathOf_head elems),
            ih fuel2 _ _ hsep2 (by simp at hfuel; omega)]
        · have hlen : 1 ≤ e.length := List.length_pos.mpr h0
          obtain ⟨fuel2, rfl⟩ : ∃ k, fuel1 = k + 1 := ⟨fuel1 - 1, by omega⟩
          rw [cleanLoop_name _ _ _ _ _ _ ⟨h0, h1, h2, hsep e (List.mem_cons_self _ _)⟩
              (pathOf_head elems),
            ih fuel2 _ _ hsep2 (by omega)]
          simp [cleanStep, h0, h1, h2]

theorem splitSep_cons_sep (l : List Char) : splitSep ('/' :: l) = [] :: splitSep l := by
  simp [splitSep]

theorem splitSep_append (a b : List Char) :
    splitSep (a ++ '/' :: b) = splitSep a ++ splitSep b := by
  induction a with
  | nil => simp [splitSep]
  | cons c a ih =>
    rw [List.cons_append]
    by_cases hc : c = '/'
    · simp only [splitSep, hc, if_true, ih, List.cons_append]
    · cases h : splitSep a with
      | nil => exact absurd h (splitSep_ne_nil a)
      | cons e elems => simp only [splitSep, hc, if_false, ih, h, List.cons_append]

/-- The function `filepath.Clean` as a walk over the elements of the path. -/
theorem filepathClean_fold (s : String) (hs : s ≠ "") (rooted : Bool)
    (hrooted : rooted = decide (s.data.head? = some '/')) :
    (filepathClean s).data =
      if ((splitSep s.data).foldl (cleanStep rooted) (cleanStart rooted, rooted.toNat)).1 = []
      then ['.']
      else ((splitSep s.data).foldl (cleanStep rooted) (cleanStart rooted, rooted.toNat)).1 := by
  unfold filepathClean
  simp only [hs, if_false]
  by_cases hh : s.data.head? = some '/'
  · simp only [hh, decide_True] at hrooted
    subst hrooted
    obtain ⟨rest, hrest⟩ : ∃ rest, s.data = '/' :: rest := by
      cases hv : s.data with
      | nil => rw [hv] at hh; simp at hh
      | cons c rest =>
        rw [hv] at hh
        simp only [List.head?_cons, Option.some.injEq] at hh
        exact ⟨rest, by rw [hh]⟩
    have hloop : cleanLoop true s.data.length s.data.tail ['/'] 1 =
        ((splitSep s.data).foldl (cleanStep true) (cleanStart true, true.toNat)).1 := by
      rw [hrest, splitSep_cons_sep, List.foldl_cons, List.tail_cons, List.length_cons]
      rw [← cleanLoop_sep true (rest.length + 1) rest ['/'] 1, ← pathOf_splitSep rest,
        cleanLoop_pathOf true _ _ _ _ (splitSep_no_sep rest)
          (by rw [pathOf_splitSep]; simp)]
      simp [cleanStep, cleanStart]
    simp only [hh, if_true, hloop]
  · simp only [hh, decide_False] at hrooted
    subst hrooted
    have hloop : cleanLoop false s.data.length s.data [] 0 =
        ((splitSep s.data).foldl (cleanStep false) (cleanStart false, false.toNat)).1 := by
      rw [← cleanLoop_sep false s.data.length s.data [] 0, ← pathOf_splitSep s.data,
        cleanLoop_pathOf false _ _ _ _ (splitSep_no_sep s.data)
          (by rw [pathOf_splitSep]; simp)]
      simp [cleanStart]
    simp only [hh, if_false, hloop]

theorem length_pushElement (rooted : Bool) (out e : List Char) :
    out.length + e.length ≤ (pushElement rooted out e).length := by
  unfold pushElement
  split_ifs <;> simp

theorem length_foldl_pushElement (rooted : Bool) (elems : List (List Char)) (out : List Char) :
    out.length ≤ (elems.foldl (pushElement rooted) out).length := by
  induction elems generalizing out with
  | nil => exact Nat.le_refl _
  | cons e elems ih =>
    rw [List.foldl_cons]
    have h1 := length_pushElement rooted out e
    have h2 := ih (pushElement rooted out e)
    omega

/-- The backtracking of the `..` case over a suffix that holds no separator
after its first character stops where the suffix starts. -/
theorem cleanBacktrack_append (prev s : List Char) (d : Nat) (hd : d ≤ prev.length)
    (h0 : s.head? = some '/' ∨ d = prev.length) (hrest : '/' ∉ s.tail) (k : Nat)
    (hk : k < s.length) :
    cleanBacktrack (prev ++ s) d (prev.length + k) = prev.length := by
  induction k with
  | zero =>
    rw [Nat.add_zero]
    cases hp : prev.length with
    | zero => rfl
    | succ w =>
      rw [cleanBacktrack, if_neg]
      rintro ⟨h1, h2⟩
      rcases h0 with h0 | h0
      · apply h2
        rw [← hp, List.get?_eq_getElem?, List.getElem?_append_right (Nat.le_refl _)]
        cases s with
        | nil => simp at h0
        | cons c s => simpa using h0
      · omega
  | succ k ih =>
    rw [show prev.length + (k + 1) = (prev.length + k) + 1 from rfl, cleanBacktrack, if_pos,
      ih (by omega)]
    refine ⟨by omega, ?_⟩
    rw [List.get?_eq_getElem?, List.getElem?_append_right (by omega)]
    have hidx : prev.length + k + 1 - prev.length = k + 1 := by omega
    rw [hidx]
    cases s with
    | nil => simp at hk
    | cons c s =>
      simp only [List.length_cons] at hk
      have hks : k < s.length := by omega
      simp only [List.getElem?_cons_succ, List.getElem?_eq_getElem hks, ne_eq,
        Option.some.injEq]
      intro heq
      apply hrest
      rw [List.tail_cons, ← heq]
      exact List.getElem_mem hks

/-- The element `..` right after a written name removes the name. -/
theorem cleanStep_pop (rooted : Bool) (prev n : List Char) (d : Nat) (hn : n ≠ [])
    (hsep : '/' ∉ n) (hd : d ≤ prev.length)
    (h0 : ¬ ((rooted = true ∧ prev.length ≠ 1) ∨ (rooted = false ∧ prev.length ≠ 0)) →
      d = prev.length) :
    cleanStep rooted (pushElement rooted prev n, d) ['.', '.'] = (prev, d) := by
  have hlen : 1 ≤ n.length := List.length_pos.mpr hn
  have hpush : ∃ s, pushElement rooted prev n = prev ++ s ∧ 1 ≤ s.length ∧
      (s.head? = some '/' ∨ d = prev.length) ∧ '/' ∉ s.tail := by
    unfold pushElement
    by_cases hc : (rooted = true ∧ prev.length ≠ 1) ∨ (rooted = false ∧ prev.length ≠ 0)
    · refine ⟨'/' :: n, by rw [if_pos hc, List.append_assoc]; rfl, by simp, Or.inl rfl, hsep⟩
    · refine ⟨n, by simp only [hc, if_false], hlen, Or.inr (h0 hc), ?_⟩
      exact fun h => hsep (List.mem_of_mem_tail h)
  obtain ⟨s, hs, hs1, hs2, hs3⟩ := hpush
  unfold cleanStep
  have h4 : ¬ (['.', '.'] = ([] : List Char) ∨ ['.', '.'] = ['.']) := by decide
  simp only [if_neg h4, if_true]
  rw [hs]
  have hlt : d < (prev ++ s).length := by
    rw [List.length_append]
    omega
  rw [if_pos hlt]
  have hidx : (prev ++ s).length - 1 = prev.length + (s.length - 1) := by
    rw [List.length_append]
    omega
  rw [hidx, cleanBacktrack_append prev s d hd hs2 hs3 _ (by omega), List.take_left]

theorem Position.render_cons (rooted : Bool) (ups : Nat) (n : List Char)
    (rest : List (List Char)) :
    Position.render rooted { ups := ups, down := n :: rest } =
      pushElement rooted (Position.render rooted { ups := ups, down := rest }) n := by
  simp [Position.render, List.foldl_append]

theorem Position.render_ups (rooted : Bool) (ups : Nat) :
    Position.render rooted { ups := ups + 1, down := [] } =
      pushElement rooted (Position.render rooted { ups := ups, down := [] }) ['.', '.'] := by
  simp [Position.render, List.replicate_succ', List.foldl_append]

theorem Position.dotdot_eq (rooted : Bool) (p : Position) :
    p.dotdot rooted = (Position.render rooted { ups := p.ups, down := [] }).length := by
  simp [Position.render, Position.dotdot]

theorem Position.dotdot_le (rooted : Bool) (p : Position) :
    p.dotdot rooted ≤ (p.render rooted).length := by
  unfold Position.render Position.dotdot
  rw [List.foldl_append]
  exact length_foldl_pushElement _ _ _

/-- One iteration of the loop of `filepath.Clean` moves the written part from
the shortest path to a place to the shortest path to the next place. -/
theorem cleanStep_render (rooted : Bool) (p : Position) (hv : p.valid rooted) (e : List Char)
    (he : '/' ∉ e) :
    cleanStep rooted (p.render rooted, p.dotdot rooted) e =
        ((p.step rooted e).render rooted, (p.step rooted e).dotdot rooted) ∧
      (p.step rooted e).valid rooted := by
  obtain ⟨ups, down⟩ := p
  by_cases h0 : e = [] ∨ e = ['.']
  · have h1 : cleanStep rooted (Position.render rooted { ups := ups, down := down },
        Position.dotdot rooted { ups := ups, down := down }) e =
        (Position.render rooted { ups := ups, down := down },
          Position.dotdot rooted { ups := ups, down := down }) := by
      simp only [cleanStep, if_pos h0]
    have h2 : Position.step rooted { ups := ups, down := down } e =
        { ups := ups, down := down } := by
      simp only [Position.step, if_pos h0]
    rw [h1, h2]
    exact ⟨rfl, hv⟩
  · by_cases h1 : e = ['.', '.']
    · subst h1
      cases down with
      | cons n rest =>
        have hn := hv.2 n (List.mem_cons_self _ _)
        have hstep : Position.step rooted { ups := ups, down := n :: rest } ['.', '.'] =
            { ups := ups, down := rest } := by
          simp [Position.step]
        rw [hstep]
        refine ⟨?_, hv.1, fun x hx => hv.2 x (List.mem_cons_of_mem _ hx)⟩
        rw [Position.render_cons]
        have hd : Position.dotdot rooted { ups := ups, down := n :: rest } =
            Position.dotdot rooted { ups := ups, down := rest } := rfl
        rw [hd]
        refine cleanStep_pop rooted _ n _ hn.1 hn.2.2.2 (Position.dotdot_le _ _) ?_
        intro hc
        have hle := Position.dotdot_le rooted { ups := ups, down := rest }
        cases rooted with
        | true =>
          have hups : ups = 0 := hv.1 rfl
          subst hups
          have h1 : (Position.render true { ups := 0, down := rest }).length = 1 := by
            by_contra hne
            exact hc (Or.inl ⟨rfl, hne⟩)
          rw [h1]
          rfl
        | false =>
          have h1 : (Position.render false { ups := ups, down := rest }).length = 0 := by
            by_contra hne
            exact hc (Or.inr ⟨rfl, hne⟩)
          omega
      | nil =>
        have hlt : ¬ (Position.dotdot rooted { ups := ups, down := [] } <
            (Position.render rooted { ups := ups, down := [] }).length) := by
          rw [Position.dotdot_eq]
          exact Nat.lt_irrefl _
        cases rooted with
        | true =>
          have hstep : Position.step true { ups := ups, down := [] } ['.', '.'] =
              { ups := ups, down := [] } := by
            simp [Position.step]
          rw [hstep]
          refine ⟨?_, hv⟩
          unfold cleanStep
          simp only [if_neg h0, if_true, if_neg hlt]
          simp
        | false =>
          have hstep : Position.step false { ups := ups, down := [] } ['.', '.'] =
              { ups := ups + 1, down := [] } := by
            simp [Position.step]
          rw [hstep]
          refine ⟨?_, fun h => absurd h (by decide), fun x hx => absurd hx (List.not_mem_nil x)⟩
          unfold cleanStep
          simp only [if_neg h0, if_true, if_neg hlt]
          rw [Position.dotdot_eq, Position.render_ups]
    · have hstep : Position.step rooted { ups := ups, down := down } e =
          { ups := ups, down := e :: down } := by
        simp only [Position.step, if_neg h0, if_neg h1]
      rw [hstep, Position.render_cons]
      refine ⟨?_, hv.1, ?_⟩
      · simp only [cleanStep, if_neg h0, if_neg h1]
        rfl
      · intro x hx
        rcases List.mem_cons.mp hx with rfl | hx
        · exact ⟨fun h => h0 (Or.inl h), fun h => h0 (Or.inr h), h1, he⟩
        · exact hv.2 x hx

theorem foldl_cleanStep_render (rooted : Bool) (elems : List (List Char)) (p : Position)
    (hv : p.valid rooted) (hsep : ∀ e ∈ elems, '/' ∉ e) :
    elems.foldl (cleanStep rooted) (p.render rooted, p.dotdot rooted) =
        ((elems.foldl (Position.step rooted) p).render rooted,
          (elems.foldl (Position.step rooted) p).dotdot rooted) ∧
      (elems.foldl (Position.step rooted) p).valid rooted := by
  induction elems generalizing p with
  | nil => exact ⟨rfl, hv⟩
  | cons e elems ih =>
    have h1 := cleanStep_render rooted p hv e (hsep e (List.mem_cons_self _ _))
    rw [List.foldl_cons, List.foldl_cons, h1.1]
    exact ih _ h1.2 (fun x hx => hsep x (List.mem_cons_of_mem _ hx))

/-- The function `filepath.Clean` returns the shortest path to the place that
its argument leads to (`.` when that path is empty). -/
theorem filepathClean_render (s : String) (hs : s ≠ "") (rooted : Bool)
    (hrooted : rooted = decide (s.data.head? = some '/')) :
    (filepathClean s).data =
        (if ((splitSep s.data).foldl (Position.step rooted) { ups := 0, down := [] }).render
            rooted = [] then ['.']
          else ((splitSep s.data).foldl (Position.step rooted)
            { ups := 0, down := [] }).render rooted) ∧
      ((splitSep s.data).foldl (Position.step rooted) { ups := 0, down := [] }).valid rooted := by
  have hinit : (cleanStart rooted, rooted.toNat) =
      (Position.render rooted { ups := 0, down := [] },
        Position.dotdot rooted { ups := 0, down := [] }) := by
    cases rooted <;> rfl
  have hvalid : Position.valid rooted { ups := 0, down := [] } :=
    ⟨fun _ => rfl, fun x hx => absurd hx (List.not_mem_nil x)⟩
  have h := foldl_cleanStep_render rooted (splitSep s.data) _ hvalid (splitSep_no_sep s.data)
  rw [filepathClean_fold s hs rooted hrooted, hinit, h.1]
  exact ⟨rfl, h.2⟩

theorem foldl_step_walkBelow (rooted : Bool) (elems below names down : List (List Char))
    (ups : Nat) (h : walkBelow below elems = some names) :
    elems.foldl (Position.step rooted) { ups := ups, down := below ++ down } =
      { ups := ups, down := names.reverse ++ down } := by
  induction elems generalizing below with
  | nil =>
    simp only [walkBelow, Option.some.injEq] at h
    rw [← h, List.reverse_reverse]
    rfl
  | cons e rest ih =>
    rw [List.foldl_cons]
    by_cases h0 : e = [] ∨ e = ['.']
    · simp only [walkBelow, if_pos h0] at h
      simp only [Position.step, if_pos h0]
      exact ih below h
    · by_cases h1 : e = ['.', '.']
      · cases below with
        | nil => simp [walkBelow, h0, h1] at h
        | cons x up =>
          simp only [walkBelow, if_neg h0, if_pos h1] at h
          simp only [Position.step, if_neg h0, if_pos h1, List.cons_append]
          exact ih up h
      · simp only [walkBelow, if_neg h0, if_neg h1] at h
        simp only [Position.step, if_neg h0, if_neg h1]
        exact ih (e :: below) h

theorem walkBelow_plain (elems below names : List (List Char))
    (hsep : ∀ e ∈ elems, '/' ∉ e) (hbelow : ∀ n ∈ below, isPlainName n)
    (h : walkBelow below elems = some names) : ∀ n ∈ names, isPlainName n := by
  induction elems generalizing below with
  | nil =>
    simp only [walkBelow, Option.some.injEq] at h
    intro n hn
    rw [← h] at hn
    exact hbelow n (List.mem_reverse.mp hn)
  | cons e rest ih =>
    have hsep2 : ∀ x ∈ rest, '/' ∉ x := fun x hx => hsep x (List.mem_cons_of_mem _ hx)
    by_cases h0 : e = [] ∨ e = ['.']
    · simp only [walkBelow, if_pos h0] at h
      exact ih below hsep2 hbelow h
    · by_cases h1 : e = ['.', '.']
      · cases below with
        | nil => simp [walkBelow, h0, h1] at h
        | cons x up =>
          simp only [walkBelow, if_neg h0, if_pos h1] at h
          exact ih up hsep2 (fun n hn => hbelow n (List.mem_cons_of_mem _ hn)) h
      · simp only [walkBelow, if_neg h0, if_neg h1] at h
        refine ih (e :: below) hsep2 ?_ h
        intro n hn
        rcases List.mem_cons.mp hn with rfl | hn
        · exact ⟨fun h => h0 (Or.inl h), fun h => h0 (Or.inr h), h1,
            hsep _ (List.mem_cons_self _ _)⟩
        · exact hbelow n hn

theorem walkBelow_names (names below : List (List Char))
    (hplain : ∀ n ∈ names, isPlainName n) :
    walkBelow below names = some (below.reverse ++ names) := by
  induction names generalizing below with
  | nil => simp [walkBelow]
  | cons n names ih =>
    have hn := hplain n (List.mem_cons_self _ _)
    have h0 : ¬ (n = [] ∨ n = ['.']) := fun h => h.elim hn.1 hn.2.1
    simp only [walkBelow, if_neg h0, if_neg hn.2.2.1]
    rw [ih (n :: below) (fun x hx => hplain x (List.mem_cons_of_mem _ hx))]
    simp

theorem Position.render_append (rooted : Bool) (ups : Nat) (names down : List (List Char)) :
    Position.render rooted { ups := ups, down := names.reverse ++ down } =
      names.foldl (pushElement rooted) (Position.render rooted { ups := ups, down := down }) := by
  simp [Position.render, List.foldl_append]

/-- Once a separator is due, every further name is written after one. -/
theorem foldl_pushElement (rooted : Bool) (names : List (List Char)) (out : List Char)
    (hnames : ∀ n ∈ names, n ≠ [])
    (hout : (rooted = true ∧ out.length ≠ 1) ∨ (rooted = false ∧ out.length ≠ 0)) :
    names.foldl (pushElement rooted) out = out ++ pathOf names := by
  induction names generalizing out with
  | nil => simp [pathOf]
  | cons n names ih =>
    have hn : 1 ≤ n.length := List.length_pos.mpr (hnames n (List.mem_cons_self _ _))
    have hpush : pushElement rooted out n = out ++ '/' :: n := by
      unfold pushElement
      rw [if_pos hout, List.append_assoc]
      rfl
    have hlen : (out ++ '/' :: n).length = out.length + 1 + n.length := by
      rw [List.length_append, List.length_cons]
      omega
    rw [List.foldl_cons, hpush, ih _ (fun x hx => hnames x (List.mem_cons_of_mem _ hx)),
      pathOf_cons]
    · simp
    · cases rooted with
      | true => exact Or.inl ⟨rfl, by omega⟩
      | false => exact Or.inr ⟨rfl, by omega⟩

/-- What is written is never the single character `.`, and it starts with a
separator exactly when the path is rooted. -/
theorem foldl_pushElement_head (rooted : Bool) (elems : List (List Char)) (out : List Char)
    (helems : ∀ e ∈ elems, e ≠ [] ∧ e ≠ ['.'] ∧ '/' ∉ e)
    (hout : out ≠ ['.'] ∧ (out.head? = some '/' ↔ rooted = true)) :
    elems.foldl (pushElement rooted) out ≠ ['.'] ∧
      ((elems.foldl (pushElement rooted) out).head? = some '/' ↔ rooted = true) := by
  induction elems generalizing out with
  | nil => exact hout
  | cons e elems ih =>
    rw [List.foldl_cons]
    refine ih _ (fun x hx => helems x (List.mem_cons_of_mem _ hx)) ?_
    obtain ⟨he0, he1, he2⟩ := helems e (List.mem_cons_self _ _)
    have hlen : 1 ≤ e.length := List.length_pos.mpr he0
    cases out with
    | nil =>
      cases rooted with
      | true => simp at hout
      | false =>
        have hpush : pushElement false [] e = e := by simp [pushElement]
        rw [hpush]
        refine ⟨he1, ?_⟩
        cases e with
        | nil => exact absurd rfl he0
        | cons c e =>
          have hc : c ≠ '/' := fun h => he2 (h ▸ List.mem_cons_self _ _)
          simp [hc]
    | cons c out =>
      have hpush : ∃ t, pushElement rooted (c :: out) e = c :: t ∧ 1 ≤ t.length := by
        unfold pushElement
        split_ifs
        · exact ⟨out ++ ['/'] ++ e, by simp, by simp; omega⟩
        · exact ⟨out ++ e, by simp, by simp; omega⟩
      obtain ⟨t, ht, ht1⟩ := hpush
      rw [ht]
      refine ⟨?_, ?_⟩
      · intro h
        have h2 : t = [] := (List.cons.inj h).2
        rw [h2] at ht1
        simp at ht1
      · simpa using hout.2

theorem Position.render_head (rooted : Bool) (p : Position) (hv : p.valid rooted) :
    p.render rooted ≠ ['.'] ∧ ((p.render rooted).head? = some '/' ↔ rooted = true) := by
  unfold Position.render
  apply foldl_pushElement_head
  · intro e he
    rcases List.mem_append.mp he with h | h
    · rw [List.eq_of_mem_replicate h]
      decide
    · have hn := hv.2 e (List.mem_reverse.mp h)
      exact ⟨hn.1, hn.2.1, hn.2.2.2⟩
  · cases rooted <;> simp [cleanStart]

theorem Position.render_rooted (names : List (List Char)) (hne : names ≠ [])
    (hplain : ∀ n ∈ names, isPlainName n) :
    Position.render true { ups := 0, down := names.reverse } = pathOf names := by
  cases names with
  | nil => exact absurd rfl hne
  | cons n names =>
    have hn := hplain n (List.mem_cons_self _ _)
    have hlen : 1 ≤ n.length := List.length_pos.mpr hn.1
    have hpush : pushElement true ['/'] n = '/' :: n := by simp [pushElement]
    simp only [Position.render, List.replicate_zero, List.nil_append, List.reverse_reverse,
      List.foldl_cons, cleanStart, if_true, hpush]
    rw [foldl_pushElement true names _
      (fun x hx => (hplain x (List.mem_cons_of_mem _ hx)).1)
      (Or.inl ⟨rfl, by rw [List.length_cons]; omega⟩), pathOf_cons]
    rfl

/-- The function `filepath.Join` on a source root and an absolute value that
stays below the directory it is read in: the names that the value leads through
are placed below the cleaned root, and the result is not the value. -/
theorem filepathJoin_placedBelow (root value : String) (names : List (List Char))
    (hroot : root ≠ "") (hclean : filepathClean root ≠ "/")
    (habs : value.data.head? = some '/')
    (hwalk : walkBelow [] (pathElements value) = some names) :
    (filepathJoin [root, value]).data = placedBelow (filepathClean root).data names ∧
      filepathJoin [root, value] ≠ value := by
  have hjoin : filepathJoin [root, value] = filepathClean (root ++ "/" ++ value) := by
    simp [filepathJoin, hroot, stringsJoin]
  have hrootdata : root.data ≠ [] := fun h => hroot (String.ext h)
  have hdata : (root ++ "/" ++ value).data = root.data ++ '/' :: value.data := by
    simp [String.data_append]
  have hne : root ++ "/" ++ value ≠ "" := by
    intro h
    have := congrArg String.data h
    rw [hdata] at this
    simp at this
  have hhead : (root ++ "/" ++ value).data.head? = root.data.head? := by
    rw [hdata]
    cases hr : root.data with
    | nil => exact absurd hr hrootdata
    | cons c r => rfl
  obtain ⟨hR, hRv⟩ := filepathClean_render root hroot
    (decide (root.data.head? = some '/')) rfl
  obtain ⟨hJ, hJv⟩ := filepathClean_render (root ++ "/" ++ value) hne
    (decide (root.data.head? = some '/')) (by rw [hhead])
  generalize decide (root.data.head? = some '/') = rooted at hR hRv hJ hJv
  have hnames : ∀ n ∈ names, isPlainName n :=
    walkBelow_plain _ [] names (splitSep_no_sep value.data)
      (fun n hn => absurd hn (List.not_mem_nil n)) hwalk
  rw [hdata, splitSep_append, List.foldl_append] at hJ hJv
  cases hP : (splitSep root.data).foldl (Position.step rooted) { ups := 0, down := [] } with
  | mk ups down =>
    rw [hP] at hR hRv hJ hJv
    have hfinal := foldl_step_walkBelow rooted (splitSep value.data) [] names down ups hwalk
    rw [List.nil_append] at hfinal
    rw [hfinal] at hJ hJv
    have hBq := Position.render_head rooted _ hRv
    have hJq := Position.render_head rooted _ hJv
    rw [Position.render_append] at hJ
    constructor
    · rw [hjoin, hJ, hR]
      cases names with
      | nil => simp [placedBelow, pathOf]
      | cons n rest =>
        have hn := hnames n (List.mem_cons_self _ _)
        have hnlen : 1 ≤ n.length := List.length_pos.mpr hn.1
        have hrest : ∀ x ∈ n :: rest, x ≠ [] := fun x hx => (hnames x hx).1
        by_cases hB : Position.render rooted { ups := ups, down := down } = []
        · have hr : rooted = false := by
            cases rooted with
            | false => rfl
            | true =>
              have := hBq.2.mpr rfl
              rw [hB] at this
              simp at this
          subst hr
          have hpush : pushElement false [] n = n := by simp [pushElement]
          rw [hB, List.foldl_cons, hpush, foldl_pushElement false rest n
            (fun x hx => hrest x (List.mem_cons_of_mem _ hx)) (Or.inr ⟨rfl, by omega⟩)]
          have hne2 : n ++ pathOf rest ≠ [] := fun h => hn.1 (List.append_eq_nil.mp h).1
          simp only [if_neg hne2, if_true, placedBelow, pathOf_cons, List.tail_cons]
          simp
        · have hsepdue : (rooted = true ∧
                (Position.render rooted { ups := ups, down := down }).length ≠ 1) ∨
              (rooted = false ∧
                (Position.render rooted { ups := ups, down := down }).length ≠ 0) := by
            cases rooted with
            | false => exact Or.inr ⟨rfl, fun h => hB (List.length_eq_zero.mp h)⟩
            | true =>
              refine Or.inl ⟨rfl, fun h => ?_⟩
              have hhd := hBq.2.mpr rfl
              apply hclean
              apply String.ext
              rw [hR, if_neg hB]
              cases hb : Position.render true { ups := ups, down := down } with
              | nil => exact absurd hb hB
              | cons c t =>
                rw [hb] at h hhd
                simp only [List.head?_cons, Option.some.injEq] at hhd
                simp only [List.length_cons, Nat.add_eq_right, List.length_eq_zero] at h
                rw [hhd, h]
          rw [foldl_pushElement rooted (n :: rest) _ hrest hsepdue, if_neg hB]
          have hne2 : Position.render rooted { ups := ups, down := down } ++ pathOf (n :: rest)
              ≠ [] := fun h => hB (List.append_eq_nil.mp h).1
          rw [if_neg hne2]
          unfold placedBelow
          rw [if_neg (fun h => hBq.1 h.1)]
    · intro heq
      have hvd : value.data = (filepathClean (root ++ "/" ++ value)).data := by
        rw [← hjoin, heq]
      rw [hJ, ← Position.render_append] at hvd
      cases rooted with
      | false =>
        have hh := hJq.2
        by_cases hempty : Position.render false { ups := ups, down := names.reverse ++ down } = []
        · rw [if_pos hempty] at hvd
          rw [hvd] at habs
          simp at habs
        · rw [if_neg hempty] at hvd
          rw [hvd] at habs
          exact absurd (hh.mp habs) (by decide)
      | true =>
        have hups : ups = 0 := hRv.1 rfl
        subst hups
        have hdown : down ≠ [] := by
          intro hd
          apply hclean
          apply String.ext
          rw [hR, hd]
          rfl
        have hM : ∀ n ∈ down.reverse ++ names, isPlainName n := by
          intro n hn
          rcases List.mem_append.mp hn with h | h
          · exact hRv.2 n (List.mem_reverse.mp h)
          · exact hnames n h
        have hrender : Position.render true { ups := 0, down := names.reverse ++ down } =
            pathOf (down.reverse ++ names) := by
          rw [← Position.render_rooted (down.reverse ++ names) (by simp [hdown]) hM]
          simp
        have hnonempty : pathOf (down.reverse ++ names) ≠ [] := by
          cases hd : down.reverse with
          | nil => exact absurd (List.reverse_eq_nil_iff.mp hd) hdown
          | cons x xs => simp [pathOf]
        rw [hrender, if_neg hnonempty] at hvd
        obtain ⟨rest, hrest⟩ : ∃ rest, value.data = '/' :: rest := by
          cases hv : value.data with
          | nil => rw [hv] at habs; simp at habs
          | cons c rest =>
            rw [hv] at habs
            simp only [List.head?_cons, Option.some.injEq] at habs
            exact ⟨rest, by rw [habs]⟩
        have hsplit : splitSep rest = down.reverse ++ names := by
          apply pathOf_injective _ _ (splitSep_no_sep rest) (fun e he => (hM e he).2.2.2)
          rw [pathOf_splitSep, ← hrest, hvd]
        have hwalk2 : walkBelow [] (pathElements value) = some (down.reverse ++ names) := by
          unfold pathElements
          rw [hrest, splitSep_cons_sep, hsplit]
          have h0 : walkBelow [] ([] :: (down.reverse ++ names)) =
              walkBelow [] (down.reverse ++ names) := by
            simp [walkBelow]
          rw [h0, walkBelow_names _ [] hM]
          rfl
        rw [hwalk] at hwalk2
        have hlen := congrArg List.length (Option.some.inj hwalk2)
        rw [List.length_append, List.length_reverse] at hlen
        exact hdown (List.length_eq_zero.mp (by omega))

/-! ## Properties of `validate` -/

/-- C1: `validate` returns an error if and only if the playbook is the empty
string; in particular every value with a non-empty playbook validates
successfully, whatever its other fields are. -/
theorem validate_error_iff (p : ansiblePlaybookStageOptions) :
    ((validate p).2 ≠ none ↔ p.Playbook = "") ∧
      ((validate p).2 = none ↔ p.Playbook ≠ "") := by
  unfold validate
  by_cases h : p.Playbook = "" <;> simp [h]

/-- C2 as stated fails: with an empty playbook and a timeout of `0`, the timeout
after `validate` is still `0`, not `600`. -/
theorem validate_timeout_counterexample :
    zeroStageOptions.Timeout ≤ 0 ∧ (validate zeroStageOptions).1.Timeout ≠ 600 := by
  decide

/-- C2 (amended): for a value with a non-empty playbook and `timeout <= 0` the
timeout after `validate` is `600`; for every value with `timeout > 0`,
`validate` leaves the timeout unchanged. -/
theorem validate_timeout (p : ansiblePlaybookStageOptions) :
    (p.Playbook ≠ "" → p.Timeout ≤ 0 → (validate p).1.Timeout = 600) ∧
      (0 < p.Timeout → (validate p).1.Timeout = p.Timeout) := by
  unfold validate
  refine ⟨fun hp ht => ?_, fun ht => ?_⟩
  · simp [hp, ht]
  · by_cases hp : p.Playbook = ""
    · simp [hp]
    · simp [hp, not_le.mpr ht]

/-- Witness of C2 (amended): a playbook with timeout `0` gets `600`, the options
of the test "valid options" keep their `300`. -/
theorem validate_timeout_witness :
    (validate { validOptions with Timeout := 0 }).1.Timeout = 600 ∧
      (validate validOptions).1.Timeout = validOptions.Timeout :=
  ⟨(validate_timeout { validOptions with Timeout := 0 }).1 (by decide) (by decide),
    (validate_timeout validOptions).2 (by decide)⟩

/-- C3: whenever `validate` returns no error, the resulting value has a
non-empty playbook and a strictly positive timeout. -/
theorem validate_invariant (p : ansiblePlaybookStageOptions)
    (h : (validate p).2 = none) :
    (validate p).1.Playbook ≠ "" ∧ 0 < (validate p).1.Timeout := by
  unfold validate at h ⊢
  by_cases hp : p.Playbook = ""
  · simp [hp] at h
  · by_cases ht : p.Timeout ≤ 0
    · simp [hp, ht]
    · simp [hp, ht]
      exact not_le.mp ht

/-- Witness of C3 at the options of the test "sets default timeout". -/
theorem validate_invariant_witness :
    (validate { validOptions with Timeout := 0 }).2 = none ∧
      (validate { validOptions with Timeout := 0 }).1.Playbook ≠ "" ∧
      0 < (validate { validOptions with Timeout := 0 }).1.Timeout :=
  ⟨by decide, validate_invariant { validOptions with Timeout := 0 } (by decide)⟩

/-- C4: `validate` is idempotent: validating the value left by a first
`validate` leaves that value unchanged and returns the same error. -/
theorem validate_idempotent (p : ansiblePlaybookStageOptions) :
    validate (validate p).1 = validate p := by
  unfold validate
  by_cases hp : p.Playbook = ""
  · simp [hp]
  · by_cases ht : p.Timeout ≤ 0
    · simp [hp, ht]
    · simp [hp, ht]

/-! ## Properties of the argument list -/

/-- C5 as stated fails: the options `deployOptions` with verbosity
`9223372036854775807` validate and their playbook exists, yet no argument list
is built: the call panics in `strings.Repeat` and launches nothing. -/
theorem executeAnsiblePlaybook_args_counterexample :
    (validate loudDeployOptions).2 = none ∧
      (sampleWorld loudDeployOptions 0).statIsNotExist
        (filepathJoin ["/src", loudDeployOptions.Playbook]) = false ∧
      (executeAnsiblePlaybook (sampleWorld loudDeployOptions 0) emptyConfig
        sampleInput).launched = none ∧
      (executeAnsiblePlaybook (sampleWorld loudDeployOptions 0) emptyConfig
        sampleInput).panicked = true := by
  decide

/-- C5 (amended): when the payload decodes to options with a non-empty playbook
that exists under the source root and a verbosity within what can be allocated,
the argument list of the launched command is the concatenation of the
documented segments in the documented order: the playbook path, then `-i`,
`--extra-vars`, `--tags`, `--skip-tags`, `--limit`, the verbosity token,
`--check`, `--diff`, `--vault-password-file`, `--private-key`, `--user` and
`--become --become-user`, each present under its condition. -/
theorem executeAnsiblePlaybook_args (w : World) (cfg : pluginConfig)
    (input : ExecuteStageInput) (opts : ansiblePlaybookStageOptions)
    (hdec : w.jsonUnmarshal input.Request.StageConfig = Except.ok opts)
    (hvalid : opts.Playbook ≠ "")
    (hexists : w.statIsNotExist
      (filepathJoin [input.Request.TargetDeploymentSource.ApplicationDirectory,
        opts.Playbook]) = false)
    (hverbosity : opts.Verbosity ≤ w.allocLimit) :
    (executeAnsiblePlaybook w cfg input).launched.map Cmd.Args =
      some (documentedArgs w cfg opts
        input.Request.TargetDeploymentSource.ApplicationDirectory) := by
  rw [(executeAnsiblePlaybook_of_exists w cfg input opts hdec hvalid hexists
    (repeat_returns_of_le _ _ hverbosity)).1]
  simp [commandOf, ansiblePlaybookArgs_eq]

/-- Witness of C5 (amended): `playbook=deploy.yml, inventory=hosts,
tags=[deploy, configure], checkMode=true` under the root `/src`. -/
theorem executeAnsiblePlaybook_args_witness :
    (executeAnsiblePlaybook (sampleWorld deployOptions 0) emptyConfig sampleInput).launched.map
        Cmd.Args =
      some ["/src/deploy.yml", "-i", "/src/hosts", "--tags", "deploy,configure", "--check"] :=
  (executeAnsiblePlaybook_args (sampleWorld deployOptions 0) emptyConfig sampleInput
    deployOptions rfl (by decide) (by decide) (by decide)).trans (by decide)

/-- C6: inventory and vault selection.  With the other options fixed, the
argument list is the first argument, the inventory segment, a fixed middle part,
the vault segment and a fixed rest; the inventory (vault) segment is built from
the stage-level value when that is non-empty, whatever the plugin-wide default
is, from the plugin-wide default when the stage-level value is empty and the
default is not, and is absent when both are empty. -/
theorem inventory_vault_selection (w : World) (o : ansiblePlaybookStageOptions)
    (root pb : String) :
    ∃ middle rest : List String, ∀ (cfg : pluginConfig) (inventory vault : String),
      ansiblePlaybookArgs w cfg { o with Inventory := inventory, Vault := vault } root pb =
        [pb]
          ++ (if inventory ≠ "" then ["-i", filepathJoin [root, inventory]]
              else if cfg.Inventory ≠ "" then ["-i", filepathJoin [root, cfg.Inventory]]
              else [])
          ++ middle
          ++ (if vault ≠ "" then ["--vault-password-file", filepathJoin [root, vault]]
              else if cfg.Vault ≠ "" then
                ["--vault-password-file", filepathJoin [root, cfg.Vault]]
              else [])
          ++ rest := by
  refine ⟨extraVarsArgs w o ++ tagsArgs o ++ skipTagsArgs o ++ limitArgs o ++ verbosityArgs o
      ++ checkArgs o ++ diffArgs o,
    privateKeyArgs o root ++ remoteUserArgs o ++ becomeUserArgs o, fun cfg inventory vault => ?_⟩
  have hi : inventoryArgs cfg { o with Inventory := inventory, Vault := vault } root =
      (if inventory ≠ "" then ["-i", filepathJoin [root, inventory]]
        else if cfg.Inventory ≠ "" then ["-i", filepathJoin [root, cfg.Inventory]]
        else []) := by
    unfold inventoryArgs selectedInventory
    by_cases h : inventory = "" <;> simp [h]
  have hv : vaultArgs cfg { o with Inventory := inventory, Vault := vault } root =
      (if vault ≠ "" then ["--vault-password-file", filepathJoin [root, vault]]
        else if cfg.Vault ≠ "" then ["--vault-password-file", filepathJoin [root, cfg.Vault]]
        else []) := by
    unfold vaultArgs selectedVault
    by_cases h : vault = "" <;> simp [h]
  rw [ansiblePlaybookArgs_segments, hi, hv]
  simp only [List.append_assoc]
  rfl

/-- C7 as stated fails: with verbosity `9223372036854775807`, which a payload
can hold, no argument list and so no verbosity token is produced: the call
panics in `strings.Repeat` and launches nothing. -/
theorem verbosity_token_counterexample :
    0 < loudValidOptions.Verbosity ∧
      (executeAnsiblePlaybook (sampleWorld loudValidOptions 0) emptyConfig
        sampleInput).launched = none ∧
      (executeAnsiblePlaybook (sampleWorld loudValidOptions 0) emptyConfig
        sampleInput).panicked = true := by
  decide

/-- C7 (amended): with a playbook that exists and the other options fixed, the
argument list of the launched command is, for every verbosity within what can
be allocated, a part before that does not depend on the verbosity, the
verbosity segment, and a part after that does not depend on it either; for such
a verbosity `n > 0` the segment is the single token `-` followed by `n` letters
`v`, of length `n + 1` (`-vv` for 2, `-vvv` for 3), and for verbosity 0 it is
empty; for a verbosity of at least 2 beyond what can be allocated the call
panics and launches nothing. -/
theorem verbosity_token (w : World) (cfg : pluginConfig) (input : ExecuteStageInput)
    (o : ansiblePlaybookStageOptions) (hvalid : o.Playbook ≠ "")
    (hexists : w.statIsNotExist
      (filepathJoin [input.Request.TargetDeploymentSource.ApplicationDirectory,
        o.Playbook]) = false) :
    (∀ n : Int, n ≤ w.allocLimit →
        (executeAnsiblePlaybook (w.decodingTo { o with Verbosity := n }) cfg
            input).launched.map Cmd.Args =
          some (argsBeforeVerbosity w cfg o
              input.Request.TargetDeploymentSource.ApplicationDirectory
            ++ (if 0 < n then [String.mk ('-' :: List.replicate n.toNat 'v')] else [])
            ++ argsAfterVerbosity cfg o
              input.Request.TargetDeploymentSource.ApplicationDirectory) ∧
          (String.mk ('-' :: List.replicate n.toNat 'v')).length = n.toNat + 1) ∧
      (2 ≤ w.allocLimit →
        (executeAnsiblePlaybook (w.decodingTo { o with Verbosity := 2 }) cfg
            input).launched.map Cmd.Args =
          some (argsBeforeVerbosity w cfg o
              input.Request.TargetDeploymentSource.ApplicationDirectory
            ++ ["-vv"]
            ++ argsAfterVerbosity cfg o
              input.Request.TargetDeploymentSource.ApplicationDirectory)) ∧
      (3 ≤ w.allocLimit →
        (executeAnsiblePlaybook (w.decodingTo { o with Verbosity := 3 }) cfg
            input).launched.map Cmd.Args =
          some (argsBeforeVerbosity w cfg o
              input.Request.TargetDeploymentSource.ApplicationDirectory
            ++ ["-vvv"]
            ++ argsAfterVerbosity cfg o
              input.Request.TargetDeploymentSource.ApplicationDirectory)) ∧
      (executeAnsiblePlaybook (w.decodingTo { o with Verbosity := 0 }) cfg
          input).launched.map Cmd.Args =
        some (argsBeforeVerbosity w cfg o
            input.Request.TargetDeploymentSource.ApplicationDirectory
          ++ argsAfterVerbosity cfg o
            input.Request.TargetDeploymentSource.ApplicationDirectory) ∧
      (∀ n : Int, (w.allocLimit : Int) < n → 2 ≤ n →
        (executeAnsiblePlaybook (w.decodingTo { o with Verbosity := n }) cfg
            input).launched = none ∧
          (executeAnsiblePlaybook (w.decodingTo { o with Verbosity := n }) cfg
            input).panicked = true) := by
  have key : ∀ n : Int, n ≤ w.allocLimit →
      (executeAnsiblePlaybook (w.decodingTo { o with Verbosity := n }) cfg
          input).launched.map Cmd.Args =
        some (argsBeforeVerbosity w cfg o
            input.Request.TargetDeploymentSource.ApplicationDirectory
          ++ (if 0 < n then [String.mk ('-' :: List.replicate n.toNat 'v')] else [])
          ++ argsAfterVerbosity cfg o
            input.Request.TargetDeploymentSource.ApplicationDirectory) := by
    intro n hn
    rw [(executeAnsiblePlaybook_of_exists (w.decodingTo { o with Verbosity := n }) cfg input
      { o with Verbosity := n } rfl hvalid hexists (repeat_returns_of_le _ _ hn)).1]
    simp only [Option.map_some', commandOf, ansiblePlaybookArgs_segments, List.append_assoc,
      argsBeforeVerbosity, argsAfterVerbosity]
    rfl
  refine ⟨fun n hn => ⟨key n hn, ?_⟩, fun h2 => ?_, fun h3 => ?_, ?_, fun n hn h2 => ?_⟩
  · simp [String.length]
  · rw [key 2 (by exact_mod_cast h2)]; rfl
  · rw [key 3 (by exact_mod_cast h3)]; rfl
  · rw [key 0 (by exact_mod_cast Nat.zero_le _)]; simp
  · rw [executeAnsiblePlaybook_of_panic (w.decodingTo { o with Verbosity := n }) cfg input
      { o with Verbosity := n } rfl hvalid hexists (repeat_panics_of_gt w.allocLimit n hn h2)]
    exact ⟨rfl, rfl⟩

/-- Witness of C7 (amended): the options of the test "valid options" with
verbosity 2. -/
theorem verbosity_token_witness :
    (executeAnsiblePlaybook
        ((sampleWorld validOptions 0).decodingTo { validOptions with Verbosity := 2 })
        emptyConfig sampleInput).launched.map Cmd.Args =
      some ["/src/playbook.yml", "-vv"] :=
  ((verbosity_token (sampleWorld validOptions 0) emptyConfig sampleInput validOptions
    (by decide) (by decide)).2.1 (by decide)).trans (by decide)

/-- C8 as stated fails: the same mapping `{env: production, version: 1.0.0}`,
walked in two different orders by two runs, gives two different tokens. -/
theorem extraVars_order_counterexample :
    (sampleWorld extraVarsOptions 0).jsonUnmarshal sampleInput.Request.StageConfig =
        (reversedWorld extraVarsOptions).jsonUnmarshal sampleInput.Request.StageConfig ∧
      (executeAnsiblePlaybook (sampleWorld extraVarsOptions 0) emptyConfig
          sampleInput).launched.map Cmd.Args =
        some ["/src/deploy.yml", "--extra-vars", "env=production version=1.0.0"] ∧
      (executeAnsiblePlaybook (reversedWorld extraVarsOptions) emptyConfig
          sampleInput).launched.map Cmd.Args =
        some ["/src/deploy.yml", "--extra-vars", "version=1.0.0 env=production"] ∧
      (executeAnsiblePlaybook (sampleWorld extraVarsOptions 0) emptyConfig
          sampleInput).launched ≠
        (executeAnsiblePlaybook (reversedWorld extraVarsOptions) emptyConfig
          sampleInput).launched := by
  refine ⟨rfl, ?_, ?_, ?_⟩ <;> decide

/-- C8 (amended): for a non-empty mapping, the entries are walked in some
permutation of the mapping; the argument list holds, after the first argument
and the inventory segment, `--extra-vars` followed by the single token made of
the `key=value` renderings of the entries, in the order of the walk, joined by
single spaces; and two runs that walk the mapping in the same order build the
same argument list. -/
theorem extraVars_token (w : World) (cfg : pluginConfig) (o : ansiblePlaybookStageOptions)
    (root pb : String) (h : o.ExtraVars ≠ []) :
    (w.mapRange o.ExtraVars).Perm o.ExtraVars ∧
      ansiblePlaybookArgs w cfg o root pb =
        ([pb] ++ inventoryArgs cfg o root)
          ++ ["--extra-vars",
              " ".intercalate ((w.mapRange o.ExtraVars).map (fun kv => kv.1 ++ "=" ++ kv.2))]
          ++ (tagsArgs o ++ skipTagsArgs o ++ limitArgs o ++ verbosityArgs o ++ checkArgs o
            ++ diffArgs o ++ vaultArgs cfg o root ++ privateKeyArgs o root ++ remoteUserArgs o
            ++ becomeUserArgs o) ∧
      ∀ w2 : World, w2.mapRange o.ExtraVars = w.mapRange o.ExtraVars →
        ansiblePlaybookArgs w2 cfg o root pb = ansiblePlaybookArgs w cfg o root pb := by
  refine ⟨w.mapRange_perm _, ?_, fun w2 h2 => ?_⟩
  · rw [ansiblePlaybookArgs_segments]
    simp only [extraVarsArgs, joinedExtraVars, h, ne_eq, not_false_eq_true, if_true,
      List.append_assoc]
  · rw [ansiblePlaybookArgs_segments, ansiblePlaybookArgs_segments]
    simp only [extraVarsArgs, h2]

/-- Witness of C8 (amended): `{env: production, version: 1.0.0}` walked in that
order. -/
theorem extraVars_token_witness :
    extraVarsOptions.ExtraVars ≠ [] ∧
      ansiblePlaybookArgs (sampleWorld extraVarsOptions 0) emptyConfig extraVarsOptions "/src"
          "/src/deploy.yml" =
        ["/src/deploy.yml", "--extra-vars", "env=production version=1.0.0"] :=
  ⟨by decide,
    (extraVars_token (sampleWorld extraVarsOptions 0) emptyConfig extraVarsOptions "/src"
      "/src/deploy.yml" (by decide)).2.1.trans (by decide)⟩

/-! ## Properties of the execution -/

/-- C9 as stated fails: with the playbook `deploy.yml/x.yml` under a root where
`deploy.yml` is a regular file, the resolved path does not exist, but `os.Stat`
fails with an error that is not `os.IsNotExist`, and the process is launched. -/
theorem playbook_not_found_counterexample :
    ((notDirectoryWorld nestedPlaybookOptions).osStat
        (filepathJoin ["/src", nestedPlaybookOptions.Playbook])).pathMissing = true ∧
      (executeAnsiblePlaybook (notDirectoryWorld nestedPlaybookOptions) emptyConfig
        sampleInput).launched =
        some { Path := "ansible-playbook", Args := ["/src/deploy.yml/x.yml"], Dir := "/src" } ∧
      (executeAnsiblePlaybook (notDirectoryWorld nestedPlaybookOptions) emptyConfig
        sampleInput).err = none := by
  decide

/-- C9 (amended): when the payload decodes to options with a non-empty playbook
and `os.Stat` on the resolved playbook path fails with an error satisfying
`os.IsNotExist`, the call returns the error
`playbook file does not exist: <path>` with no response, and launches no
process. -/
theorem playbook_not_found (w : World) (cfg : pluginConfig)
    (input : ExecuteStageInput) (opts : ansiblePlaybookStageOptions)
    (hdec : w.jsonUnmarshal input.Request.StageConfig = Except.ok opts)
    (hvalid : opts.Playbook ≠ "")
    (hmissing : w.statIsNotExist
      (filepathJoin [input.Request.TargetDeploymentSource.ApplicationDirectory,
        opts.Playbook]) = true) :
    (executeAnsiblePlaybook w cfg input).err =
        some ("playbook file does not exist: " ++
          filepathJoin [input.Request.TargetDeploymentSource.ApplicationDirectory,
            opts.Playbook]) ∧
      (executeAnsiblePlaybook w cfg input).launched = none ∧
      (executeAnsiblePlaybook w cfg input).response = none := by
  unfold executeAnsiblePlaybook
  simp [hdec, validate_of_playbook opts hvalid, playbook_normalized, hmissing]

/-- Witness of C9 (amended): the options of the test "valid options" on an empty
disk. -/
theorem playbook_not_found_witness :
    (executeAnsiblePlaybook (emptyDiskWorld validOptions) emptyConfig sampleInput).err =
        some "playbook file does not exist: /src/playbook.yml" ∧
      (executeAnsiblePlaybook (emptyDiskWorld validOptions) emptyConfig sampleInput).launched =
        none ∧
      (executeAnsiblePlaybook (emptyDiskWorld validOptions) emptyConfig sampleInput).response =
        none :=
  playbook_not_found (emptyDiskWorld validOptions) emptyConfig sampleInput validOptions rfl
    (by decide) rfl

/-- C10: whenever a process is launched, the call returns the status Success
and no error if the run reports exit code 0, and the status Failure with an
error if the run reports a non-zero exit code or did not take place; the status
is never anything else. -/
theorem status_mapping (w : World) (cfg : pluginConfig) (input : ExecuteStageInput)
    (cmd : Cmd) (h : (executeAnsiblePlaybook w cfg input).launched = some cmd) :
    (∀ text, w.cmdRun cmd = RunResult.exited 0 text →
        (executeAnsiblePlaybook w cfg input).response =
            some { Status := StageStatus.StageStatusSuccess } ∧
          (executeAnsiblePlaybook w cfg input).err = none) ∧
      (∀ code text, code ≠ 0 → w.cmdRun cmd = RunResult.exited code text →
        (executeAnsiblePlaybook w cfg input).response =
            some { Status := StageStatus.StageStatusFailure } ∧
          (executeAnsiblePlaybook w cfg input).err ≠ none) ∧
      (∀ text, w.cmdRun cmd = RunResult.notRun text →
        (executeAnsiblePlaybook w cfg input).response =
            some { Status := StageStatus.StageStatusFailure } ∧
          (executeAnsiblePlaybook w cfg input).err ≠ none) ∧
      ((executeAnsiblePlaybook w cfg input).response =
          some { Status := StageStatus.StageStatusSuccess } ∨
        (executeAnsiblePlaybook w cfg input).response =
          some { Status := StageStatus.StageStatusFailure }) := by
  obtain ⟨opts, hdec, hvalid, hexists, hrepeat, rfl⟩ :=
    executeAnsiblePlaybook_launched_inv w cfg input cmd h
  obtain ⟨-, hok, hfail⟩ :=
    executeAnsiblePlaybook_of_exists w cfg input opts hdec hvalid hexists hrepeat
  refine ⟨fun text hr => hok (by simp [hr, RunResult.err]), fun code text hc hr => ?_,
    fun text hr => ?_, ?_⟩
  · obtain ⟨h1, h2⟩ := hfail text (by simp [hr, RunResult.err, hc])
    exact ⟨h1, by simp [h2]⟩
  · obtain ⟨h1, h2⟩ := hfail text (by simp [hr, RunResult.err])
    exact ⟨h1, by simp [h2]⟩
  · cases hrun : (w.cmdRun (commandOf w cfg opts
        input.Request.TargetDeploymentSource.ApplicationDirectory)).err with
    | none => exact Or.inl (hok hrun).1
    | some e => exact Or.inr (hfail e hrun).1

/-- Witness of C10: the options of the test "valid options", run with exit code
0. -/
theorem status_mapping_witness :
    (executeAnsiblePlaybook (sampleWorld validOptions 0) emptyConfig sampleInput).response =
        some { Status := StageStatus.StageStatusSuccess } ∧
      (executeAnsiblePlaybook (sampleWorld validOptions 0) emptyConfig sampleInput).err = none :=
  (status_mapping (sampleWorld validOptions 0) emptyConfig sampleInput
    (commandOf (sampleWorld validOptions 0) emptyConfig validOptions "/src") (by decide)).1
    "exit status" rfl

/-! ## Failures before the launch -/

/-- C11 as stated fails: for a payload that decodes to an empty playbook the
call returns no response at all, so in particular not the status Failure. -/
theorem configuration_error_counterexample :
    (executeAnsiblePlaybook (sampleWorld zeroStageOptions 0) emptyConfig sampleInput).response =
        none ∧
      (executeAnsiblePlaybook (sampleWorld zeroStageOptions 0) emptyConfig sampleInput).response ≠
        some { Status := StageStatus.StageStatusFailure } := by
  decide

/-- C11 (amended): when the payload does not decode, or decodes to an empty
playbook, or decodes to a playbook that does not exist, the call writes exactly
one message, of error level, returns no response together with an error, and
launches no process. -/
theorem configuration_error (w : World) (cfg : pluginConfig) (input : ExecuteStageInput)
    (h : (∃ e, w.jsonUnmarshal input.Request.StageConfig = Except.error e) ∨
      (∃ opts, w.jsonUnmarshal input.Request.StageConfig = Except.ok opts ∧
        (opts.Playbook = "" ∨
          w.statIsNotExist
            (filepathJoin [input.Request.TargetDeploymentSource.ApplicationDirectory,
              opts.Playbook]) = true))) :
    (∃ msg, (executeAnsiblePlaybook w cfg input).logs = [(LogLevel.error, msg)]) ∧
      (executeAnsiblePlaybook w cfg input).response = none ∧
      (executeAnsiblePlaybook w cfg input).err ≠ none ∧
      (executeAnsiblePlaybook w cfg input).launched = none := by
  rcases h with ⟨e, he⟩ | ⟨opts, hdec, hbad⟩
  · unfold executeAnsiblePlaybook
    simp [he]
  · by_cases hp : opts.Playbook = ""
    · unfold executeAnsiblePlaybook
      simp [hdec, validate_of_no_playbook opts hp]
    · have hst := hbad.resolve_left hp
      unfold executeAnsiblePlaybook
      simp [hdec, validate_of_playbook opts hp, playbook_normalized, hst]

/-- Witness of C11 (amended): a payload that does not decode. -/
theorem configuration_error_witness :
    (executeAnsiblePlaybook (brokenPayloadWorld "unexpected end of JSON input") emptyConfig
        sampleInput).response = none ∧
      (executeAnsiblePlaybook (brokenPayloadWorld "unexpected end of JSON input") emptyConfig
        sampleInput).err ≠ none ∧
      (executeAnsiblePlaybook (brokenPayloadWorld "unexpected end of JSON input") emptyConfig
        sampleInput).launched = none :=
  (configuration_error (brokenPayloadWorld "unexpected end of JSON input") emptyConfig
    sampleInput (Or.inl ⟨"unexpected end of JSON input", rfl⟩)).2

/-! ## Stage catalogue and dispatch -/

/-- C12: `buildPipelineSyncStages` returns as many stages as were requested, and
the stage at every position carries the index and the name of the request at
that position, no rollback, no manual operation and empty metadata. -/
theorem buildPipelineSyncStages_spec (req : BuildPipelineSyncStagesRequest) :
    (buildPipelineSyncStages req).length = req.Stages.length ∧
      ∀ i : Nat,
        (buildPipelineSyncStages req).get? i =
          (req.Stages.get? i).map (fun rs =>
            { Index := rs.Index, Name := rs.Name, Rollback := false, Metadata := [],
              AvailableOperation := ManualOperation.ManualOperationNone }) := by
  have h : buildPipelineSyncStages req =
      req.Stages.map (fun rs =>
        ({ Index := rs.Index, Name := rs.Name, Rollback := false, Metadata := [],
           AvailableOperation := ManualOperation.ManualOperationNone } : PipelineStage)) := by
    unfold buildPipelineSyncStages
    rw [foldl_append_singleton]
    rfl
  rw [h]
  exact ⟨List.length_map _ _, fun i => by simp⟩

/-- C13: whenever a process is launched, its executable is the configured
`ansiblePath` when that is non-empty and `ansible-playbook` otherwise, its
working directory is the source root, and its arguments are the argument list
built from the decoded options. -/
theorem process_invocation (w : World) (cfg : pluginConfig) (input : ExecuteStageInput)
    (cmd : Cmd) (h : (executeAnsiblePlaybook w cfg input).launched = some cmd) :
    cmd.Path = (if cfg.AnsiblePath ≠ "" then cfg.AnsiblePath else "ansible-playbook") ∧
      cmd.Dir = input.Request.TargetDeploymentSource.ApplicationDirectory ∧
      ∃ opts, w.jsonUnmarshal input.Request.StageConfig = Except.ok opts ∧
        cmd.Args = documentedArgs w cfg opts
          input.Request.TargetDeploymentSource.ApplicationDirectory := by
  obtain ⟨opts, hdec, -, -, -, rfl⟩ := executeAnsiblePlaybook_launched_inv w cfg input cmd h
  refine ⟨?_, rfl, opts, hdec, ?_⟩
  · unfold commandOf
    by_cases hp : cfg.AnsiblePath = "" <;> simp [hp]
  · unfold commandOf
    exact ansiblePlaybookArgs_eq w cfg opts _

/-- Witness of C13: the options `deployOptions` with an empty plugin
configuration. -/
theorem process_invocation_witness :
    (commandOf (sampleWorld deployOptions 0) emptyConfig deployOptions "/src").Path =
        "ansible-playbook" ∧
      (commandOf (sampleWorld deployOptions 0) emptyConfig deployOptions "/src").Dir = "/src" :=
  ⟨(process_invocation (sampleWorld deployOptions 0) emptyConfig sampleInput
      (commandOf (sampleWorld deployOptions 0) emptyConfig deployOptions "/src")
      (by decide)).1,
    (process_invocation (sampleWorld deployOptions 0) emptyConfig sampleInput
      (commandOf (sampleWorld deployOptions 0) emptyConfig deployOptions "/src")
      (by decide)).2.1⟩

/-- C14: `validate` changes no field other than the timeout. -/
theorem validate_frame (p : ansiblePlaybookStageOptions) :
    (validate p).1.Playbook = p.Playbook ∧
      (validate p).1.Inventory = p.Inventory ∧
      (validate p).1.ExtraVars = p.ExtraVars ∧
      (validate p).1.Tags = p.Tags ∧
      (validate p).1.SkipTags = p.SkipTags ∧
      (validate p).1.Limit = p.Limit ∧
      (validate p).1.Verbosity = p.Verbosity ∧
      (validate p).1.CheckMode = p.CheckMode ∧
      (validate p).1.DiffMode = p.DiffMode ∧
      (validate p).1.Vault = p.Vault ∧
      (validate p).1.PrivateKey = p.PrivateKey ∧
      (validate p).1.RemoteUser = p.RemoteUser ∧
      (validate p).1.BecomeUser = p.BecomeUser := by
  unfold validate
  by_cases hp : p.Playbook = ""
  · simp [hp]
  · by_cases ht : p.Timeout ≤ 0 <;> simp [hp, ht]

/-- C16: `FetchDefinedStages` returns exactly one stage kind, the string
`ANSIBLE_PLAYBOOK`. -/
theorem fetchDefinedStages_spec (p : plugin) :
    p.FetchDefinedStages.length = 1 ∧ p.FetchDefinedStages = ["ANSIBLE_PLAYBOOK"] := by
  exact ⟨rfl, rfl⟩

/-- C18: when `validate` returns an error, the value is left completely
unchanged, its timeout included. -/
theorem validate_atomic (p : ansiblePlaybookStageOptions) (h : (validate p).2 ≠ none) :
    (validate p).1 = p := by
  unfold validate at h ⊢
  by_cases hp : p.Playbook = ""
  · simp [hp]
  · simp [hp] at h

/-- Witness of C18: the zero value, whose timeout `0` is not rewritten. -/
theorem validate_atomic_witness :
    (validate zeroStageOptions).2 ≠ none ∧ (validate zeroStageOptions).1 = zeroStageOptions :=
  ⟨by decide, validate_atomic zeroStageOptions (by decide)⟩

/-- C19: two payloads that decode to options with the same non-empty playbook
and differing at most in the timeout lead, in the same world and under the same
source root, to the same execution: same messages, same launched command
(executable, working directory, arguments) and same results. -/
theorem timeout_irrelevant (w : World) (cfg : pluginConfig)
    (input1 input2 : ExecuteStageInput) (opts : ansiblePlaybookStageOptions) (timeout : Int)
    (hdec1 : w.jsonUnmarshal input1.Request.StageConfig = Except.ok opts)
    (hdec2 : w.jsonUnmarshal input2.Request.StageConfig =
      Except.ok { opts with Timeout := timeout })
    (hroot : input1.Request.TargetDeploymentSource = input2.Request.TargetDeploymentSource)
    (hvalid : opts.Playbook ≠ "") :
    executeAnsiblePlaybook w cfg input1 = executeAnsiblePlaybook w cfg input2 := by
  have hvalid2 : ({ opts with Timeout := timeout } : ansiblePlaybookStageOptions).Playbook ≠ "" :=
    hvalid
  unfold executeAnsiblePlaybook
  simp only [hdec1, hdec2, validate_of_playbook opts hvalid,
    validate_of_playbook _ hvalid2, hroot]
  by_cases h1 : opts.Timeout ≤ 0 <;> by_cases h2 : timeout ≤ 0 <;>
    simp only [h1, h2, if_true, if_false] <;> rfl

/-- Witness of C19: in a world that decodes the payload `long` to the options of
the test "valid options" with timeout `900` and every other payload to those
options themselves. -/
theorem timeout_irrelevant_witness :
    executeAnsiblePlaybook
        { sampleWorld validOptions 0 with
          jsonUnmarshal := fun s =>
            if s = "long" then Except.ok { validOptions with Timeout := 900 }
            else Except.ok validOptions }
        emptyConfig sampleInput =
      executeAnsiblePlaybook
        { sampleWorld validOptions 0 with
          jsonUnmarshal := fun s =>
            if s = "long" then Except.ok { validOptions with Timeout := 900 }
            else Except.ok validOptions }
        emptyConfig
        { Request := { sampleInput.Request with StageConfig := "long" } } :=
  timeout_irrelevant _ emptyConfig sampleInput
    { Request := { sampleInput.Request with StageConfig := "long" } } validOptions 900
    rfl rfl rfl (by decide)

/-- C20: for a stage name other than `ANSIBLE_PLAYBOOK`, `ExecuteStage` returns
the error `unsupported stage: <name>` with no response, writes nothing and
launches nothing, whatever the payload and the world are; for the name
`ANSIBLE_PLAYBOOK` its result is that of `executeAnsiblePlaybook`. -/
theorem executeStage_dispatch (p : plugin) (w : World) (cfg : pluginConfig)
    (input : ExecuteStageInput) :
    (input.Request.StageName ≠ "ANSIBLE_PLAYBOOK" →
        p.ExecuteStage w cfg input =
          { logs := [], launched := none, response := none,
            err := some ("unsupported stage: " ++ input.Request.StageName) }) ∧
      (input.Request.StageName = "ANSIBLE_PLAYBOOK" →
        p.ExecuteStage w cfg input = executeAnsiblePlaybook w cfg input) := by
  unfold plugin.ExecuteStage stageAnsiblePlaybook
  exact ⟨fun h => by simp [h], fun h => by simp [h]⟩

/-- Witness of C20: the stage name `WAIT`, and the stage name `ANSIBLE_PLAYBOOK`
with the options of the test "valid options". -/
theorem executeStage_dispatch_witness :
    plugin.ExecuteStage {} (sampleWorld validOptions 0) emptyConfig otherStageInput =
        { logs := [], launched := none, response := none,
          err := some "unsupported stage: WAIT" } ∧
      plugin.ExecuteStage {} (sampleWorld validOptions 0) emptyConfig sampleInput =
        executeAnsiblePlaybook (sampleWorld validOptions 0) emptyConfig sampleInput :=
  ⟨(executeStage_dispatch {} (sampleWorld validOptions 0) emptyConfig otherStageInput).1
      (by decide),
    (executeStage_dispatch {} (sampleWorld validOptions 0) emptyConfig sampleInput).2 rfl⟩

/-! ## Properties of the decoding -/

/-- C15 as stated fails: an entry named `PLAYBOOK`, which is not one of the
fixed names, is not ignored but sets the playbook, although no entry named
`playbook` is there; and an entry `verbosity` holding a JSON string makes the
decoding fail instead of setting the field. -/
theorem decode_payload_counterexample :
    "PLAYBOOK" ∉ stageOptionFields ∧
      jsonUnmarshalObject [("PLAYBOOK", JsonValue.scalar (JsonScalar.string "deploy.yml"))] =
        { opts := { zeroStageOptions with Playbook := "deploy.yml" }, err := none } ∧
      (jsonUnmarshalObject
        [("verbosity", JsonValue.scalar (JsonScalar.string "2"))]).err ≠ none := by
  decide

/-- C15 (amended): for a payload object in which no two entries name the same
field and every entry that names a field holds a value of the JSON type of that
field (or `null`), a key naming a field when it equals the fixed name after case
folding, the decoding succeeds and sets each field from the entry that names
it (of the entries of an `extraVars` object that share a key, the last one
counts), a field without such an entry keeping its zero value; and an entry
whose key names no field is ignored in every payload. -/
theorem decode_payload (entries : List (String × JsonValue))
    (h : wellFormedPayload entries) :
    jsonUnmarshalObject entries = { opts := documentedDecode entries, err := none } ∧
      ∀ (key : String) (v : JsonValue) (before after : List (String × JsonValue)),
        (∀ field ∈ stageOptionFields, foldName key ≠ foldName field) →
        jsonUnmarshalObject (before ++ (key, v) :: after) =
          jsonUnmarshalObject (before ++ after) := by
  constructor
  · have hopts := jsonUnmarshalObject_opts entries h
    have herr : (jsonUnmarshalObject entries).err = none :=
      foldl_decodeEntry_err entries _ h.2
    have htags := congrArg Prod.snd (jsonUnmarshalObject_tags entries h)
    have hskip := congrArg Prod.snd (jsonUnmarshalObject_skipTags entries h)
    cases hst : jsonUnmarshalObject entries with
    | mk opts err tagsSpare skipTagsSpare =>
      rw [hst] at hopts herr htags hskip
      simp only at hopts herr htags hskip
      rw [hopts, herr, htags, hskip]
  · intro key v before after hkey
    unfold jsonUnmarshalObject
    rw [List.foldl_append, List.foldl_append, List.foldl_cons,
      decodeEntry_of_none _ (key, v) (findField_eq_none key hkey)]

/-- Witness of C15 (amended): the payload of the test
`TestStageOptionsUnmarshal`, and a payload whose `extraVars` object repeats a
key. -/
theorem decode_payload_witness :
    jsonUnmarshalObject testPayload =
        { opts :=
            { zeroStageOptions with
              Playbook := "deploy.yml", Inventory := "hosts",
              ExtraVars := [("env", "production"), ("version", "1.0.0")],
              Tags := ["deploy", "configure"], Verbosity := 2, CheckMode := true },
          err := none } ∧
      jsonUnmarshalObject repeatedKeyPayload =
        { opts := { zeroStageOptions with Playbook := "p.yml", ExtraVars := [("a", "2")] },
          err := none } :=
  ⟨(decode_payload testPayload (by decide)).1.trans (by decide),
    (decode_payload repeatedKeyPayload (by decide)).1.trans (by decide)⟩

/-! ## Properties of the path-bearing options -/

/-- C17 as stated fails: under the root `/src` the absolute inventory
`/../etc/hosts` is emitted as `/etc/hosts`, which is not under the root; and
under the root `/`, as under an empty root, the absolute value `/etc/hosts` is
emitted unchanged. -/
theorem absolute_path_counterexample :
    ansiblePlaybookArgs (sampleWorld zeroStageOptions 0) emptyConfig
        { zeroStageOptions with Playbook := "deploy.yml", Inventory := "/../etc/hosts" }
        "/src" (filepathJoin ["/src", "deploy.yml"]) =
      ["/src/deploy.yml", "-i", "/etc/hosts"] ∧
      filepathJoin ["/", "/etc/hosts"] = "/etc/hosts" ∧
      filepathJoin ["", "/etc/hosts"] = "/etc/hosts" := by
  decide

/-- C17 (amended): the playbook, the selected inventory, the selected vault and
the private key enter the argument list as `filepath.Join` of the source root
and the value, absolute or not; and for a source root that is not empty and
whose cleaned form is not `/`, and a value that is an absolute path and does
not climb out of the directory it is read in, the emitted path is the cleaned
source root followed by the names that the value leads through, each after a
separator (under a root that cleans to `.` the names alone), and it is not the
value itself. -/
theorem path_options_joined (w : World) (cfg : pluginConfig)
    (o : ansiblePlaybookStageOptions) (root value : String) (names : List (List Char)) :
    (∃ rest, ansiblePlaybookArgs w cfg o root (filepathJoin [root, o.Playbook]) =
        filepathJoin [root, o.Playbook] :: rest) ∧
      (selectedInventory cfg o ≠ "" →
        ∃ before after, ansiblePlaybookArgs w cfg o root (filepathJoin [root, o.Playbook]) =
          before ++ ["-i", filepathJoin [root, selectedInventory cfg o]] ++ after) ∧
      (selectedVault cfg o ≠ "" →
        ∃ before after, ansiblePlaybookArgs w cfg o root (filepathJoin [root, o.Playbook]) =
          before ++ ["--vault-password-file", filepathJoin [root, selectedVault cfg o]]
            ++ after) ∧
      (o.PrivateKey ≠ "" →
        ∃ before after, ansiblePlaybookArgs w cfg o root (filepathJoin [root, o.Playbook]) =
          before ++ ["--private-key", filepathJoin [root, o.PrivateKey]] ++ after) ∧
      (root ≠ "" → filepathClean root ≠ "/" → value.data.head? = some '/' →
        walkBelow [] (pathElements value) = some names →
        (filepathJoin [root, value]).data = placedBelow (filepathClean root).data names ∧
          filepathJoin [root, value] ≠ value) := by
  refine ⟨⟨inventoryArgs cfg o root ++ extraVarsArgs w o ++ tagsArgs o ++ skipTagsArgs o
        ++ limitArgs o ++ verbosityArgs o ++ checkArgs o ++ diffArgs o ++ vaultArgs cfg o root
        ++ privateKeyArgs o root ++ remoteUserArgs o ++ becomeUserArgs o, ?_⟩,
    fun h => ⟨[filepathJoin [root, o.Playbook]],
      extraVarsArgs w o ++ tagsArgs o ++ skipTagsArgs o ++ limitArgs o ++ verbosityArgs o
        ++ checkArgs o ++ diffArgs o ++ vaultArgs cfg o root ++ privateKeyArgs o root
        ++ remoteUserArgs o ++ becomeUserArgs o, ?_⟩,
    fun h => ⟨[filepathJoin [root, o.Playbook]] ++ inventoryArgs cfg o root
        ++ extraVarsArgs w o ++ tagsArgs o ++ skipTagsArgs o ++ limitArgs o ++ verbosityArgs o
        ++ checkArgs o ++ diffArgs o,
      privateKeyArgs o root ++ remoteUserArgs o ++ becomeUserArgs o, ?_⟩,
    fun h => ⟨[filepathJoin [root, o.Playbook]] ++ inventoryArgs cfg o root
        ++ extraVarsArgs w o ++ tagsArgs o ++ skipTagsArgs o ++ limitArgs o ++ verbosityArgs o
        ++ checkArgs o ++ diffArgs o ++ vaultArgs cfg o root,
      remoteUserArgs o ++ becomeUserArgs o, ?_⟩,
    fun h1 h2 h3 h4 => filepathJoin_placedBelow root value names h1 h2 h3 h4⟩
  · rw [ansiblePlaybookArgs_segments]
    simp only [List.append_assoc, List.singleton_append, List.cons_append, List.nil_append]
  · rw [ansiblePlaybookArgs_segments]
    simp only [inventoryArgs, h, ne_eq, not_false_eq_true, if_true, List.append_assoc]
  · rw [ansiblePlaybookArgs_segments]
    simp only [vaultArgs, h, ne_eq, not_false_eq_true, if_true, List.append_assoc]
  · rw [ansiblePlaybookArgs_segments]
    simp only [privateKeyArgs, h, ne_eq, not_false_eq_true, if_true, List.append_assoc]

/-- Witness of C17 (amended): the inventory `/etc/hosts` under the roots `/src`,
`src`, `/src/` and `.`, and the inventory `/a/../b` under the root `/src`. -/
theorem path_options_joined_witness :
    ((filepathJoin ["/src", "/etc/hosts"]).data = "/src/etc/hosts".data ∧
        filepathJoin ["/src", "/etc/hosts"] ≠ "/etc/hosts") ∧
      ((filepathJoin ["src", "/etc/hosts"]).data = "src/etc/hosts".data ∧
        filepathJoin ["src", "/etc/hosts"] ≠ "/etc/hosts") ∧
      ((filepathJoin ["/src/", "/etc/hosts"]).data = "/src/etc/hosts".data ∧
        filepathJoin ["/src/", "/etc/hosts"] ≠ "/etc/hosts") ∧
      ((filepathJoin [".", "/etc/hosts"]).data = "etc/hosts".data ∧
        filepathJoin [".", "/etc/hosts"] ≠ "/etc/hosts") ∧
      ((filepathJoin ["/src", "/a/../b"]).data = "/src/b".data ∧
        filepathJoin ["/src", "/a/../b"] ≠ "/a/../b") :=
  ⟨⟨((path_options_joined (sampleWorld deployOptions 0) emptyConfig deployOptions "/src"
        "/etc/hosts" ["etc".data, "hosts".data]).2.2.2.2 (by decide) (by decide) (by decide)
        (by decide)).1.trans (by decide),
      ((path_options_joined (sampleWorld deployOptions 0) emptyConfig deployOptions "/src"
        "/etc/hosts" ["etc".data, "hosts".data]).2.2.2.2 (by decide) (by decide) (by decide)
        (by decide)).2⟩,
    ⟨((path_options_joined (sampleWorld deployOptions 0) emptyConfig deployOptions "src"
        "/etc/hosts" ["etc".data, "hosts".data]).2.2.2.2 (by decide) (by decide) (by decide)
        (by decide)).1.trans (by decide),
      ((path_options_joined (sampleWorld deployOptions 0) emptyConfig deployOptions "src"
        "/etc/hosts" ["etc".data, "hosts".data]).2.2.2.2 (by decide) (by decide) (by decide)
        (by decide)).2⟩,
    ⟨((path_options_joined (sampleWorld deployOptions 0) emptyConfig deployOptions "/src/"
        "/etc/hosts" ["etc".data, "hosts".data]).2.2.2.2 (by decide) (by decide) (by decide)
        (by decide)).1.trans (by decide),
      ((path_options_joined (sampleWorld deployOptions 0) emptyConfig deployOptions "/src/"
        "/etc/hosts" ["etc".data, "hosts".data]).2.2.2.2 (by decide) (by decide) (by decide)
        (by decide)).2⟩,
    ⟨((path_options_joined (sampleWorld deployOptions 0) emptyConfig deployOptions "."
        "/etc/hosts" ["etc".data, "hosts".data]).2.2.2.2 (by decide) (by decide) (by decide)
        (by decide)).1.trans (by decide),
      ((path_options_joined (sampleWorld deployOptions 0) emptyConfig deployOptions "."
        "/etc/hosts" ["etc".data, "hosts".data]).2.2.2.2 (by decide) (by decide) (by decide)
        (by decide)).2⟩,
    ⟨((path_options_joined (sampleWorld deployOptions 0) emptyConfig deployOptions "/src"
        "/a/../b" ["b".data]).2.2.2.2 (by decide) (by decide) (by decide)
        (by decide)).1.trans (by decide),
      ((path_options_joined (sampleWorld deployOptions 0) emptyConfig deployOptions "/src"
        "/a/../b" ["b".data]).2.2.2.2 (by decide) (by decide) (by decide)
        (by decide)).2⟩⟩

end Ansible
